import Mathlib

/-!
Verification of the multi-source dataset acquisition framework
(`Dataset_d/`): a shallow embedding of the download backends
(`common.py`, `http_d.py`, `gh_d.py`, `drive.py`, `kaggle_d.py`,
`local_d.py`, `s3_d.py`, `hf_d.py`) over an explicit filesystem model,
together with theorems settling the specification claims.

The filesystem is modelled as a flat association list from resolved
path components to nodes (`FS`), so that every file operation used by
the code (mkdir -p, unlink, rmtree, streaming a response to a file,
`extractall`, `unpack_archive`, `copytree`) is a structural list
operation. Network and subprocess collaborators are supplied as
explicit world records, mirroring the response/cookie/exit-code data
the code consumes.
-/

set_option maxHeartbeats 1000000

/-! ## Paths -/

/-- A filesystem path: `pathlib.Path` is modelled as an absolute flag plus
the list of components. -/
structure Pth where
  abs : Bool
  comps : List String
deriving DecidableEq, Repr

/-- Resolve a path to the key used by the filesystem model: relative paths
live under the process working directory (marker `"."`), absolute paths
under the root (marker `"/"`). -/
def Pth.resolve (p : Pth) : List String :=
  (if p.abs then "/" else ".") :: p.comps

/-- Render a path as a string (`str(path)`). -/
def Pth.render (p : Pth) : String :=
  (if p.abs then "/" else "") ++ String.intercalate "/" p.comps

/-- `path / name`. -/
def Pth.child (p : Pth) (n : String) : Pth :=
  ⟨p.abs, p.comps ++ [n]⟩

/-- Last component of a path (`path.name` for our uses). -/
def Pth.lastComp (p : Pth) : String :=
  (p.comps.getLast?).getD ""

/-! ## Filesystem model -/

/-- A filesystem node: a regular file with its byte content, a directory
marker, or a symbolic link. -/
inductive FNode where
  | file (content : String)
  | dirMark
  | link (target : List String)
deriving DecidableEq, Repr

/-- A filesystem: a flat association list from resolved paths to nodes.
Directories are explicit entries, so `exists`/`is_dir` checks are lookups. -/
abbrev FS := List (List String × FNode)

/-- `isLead p q` holds when `p` is a (not necessarily proper) leading
segment of `q`: used to delimit the subtree below a directory. -/
def isLead : List String → List String → Bool
  | [], _ => true
  | _ :: _, [] => false
  | a :: as, b :: bs => if a = b then isLead as bs else false

/-- Strip the leading segment `p` from `q`, returning the remainder. -/
def dropLead : List String → List String → Option (List String)
  | [], q => some q
  | _ :: _, [] => none
  | a :: as, b :: bs => if a = b then dropLead as bs else none

/-- Look a path up in the filesystem (first matching entry). -/
def fsLookup : FS → List String → Option FNode
  | [], _ => none
  | e :: rest, p => if e.1 = p then some e.2 else fsLookup rest p

/-- `path.exists()`. -/
def fsExists (fs : FS) (p : List String) : Bool :=
  (fsLookup fs p).isSome

/-- `path.unlink()`: remove the entry at exactly `p`. -/
def fsUnlink : FS → List String → FS
  | [], _ => []
  | e :: rest, p => if e.1 = p then fsUnlink rest p else e :: fsUnlink rest p

/-- `shutil.rmtree(path)` (also covers unlinking a file: a file has no
descendants): remove `p` and everything below it. -/
def fsRemoveTree : FS → List String → FS
  | [], _ => []
  | e :: rest, p => if isLead p e.1 then fsRemoveTree rest p else e :: fsRemoveTree rest p

/-- Create the chain of directories `base ++ [n₁]`, `base ++ [n₁, n₂]`, …
that are missing, appending directory entries
(`mkdir(parents=True, exist_ok=True)` walking down from `base`). -/
def fsMkdirAlong (fs : FS) (base : List String) : List String → FS
  | [] => fs
  | n :: rest =>
    if fsExists fs (base ++ [n]) then fsMkdirAlong fs (base ++ [n]) rest
    else fsMkdirAlong (fs ++ [(base ++ [n], FNode.dirMark)]) (base ++ [n]) rest

/-- `path.mkdir(parents=True, exist_ok=True)`. -/
def fsMkdirP (fs : FS) (p : List String) : FS :=
  fsMkdirAlong fs [] p

/-- Write a node at `p`, creating parent directories as needed and
replacing any previous entry at `p` (open("wb") / copy2 semantics). -/
def fsSetEntry (fs : FS) (p : List String) (n : FNode) : FS :=
  fsUnlink (fsMkdirP fs p.dropLast) p ++ [(p, n)]

/-- Names of the immediate children of directory `p` (`path.iterdir()`),
in filesystem-entry order. -/
def fsChildNames : FS → List String → List String
  | [], _ => []
  | e :: rest, p =>
    match dropLead p e.1 with
    | some [n] => n :: fsChildNames rest p
    | _ => fsChildNames rest p

/-- Paths (relative to `p`) of the regular files strictly below `p`
(`path.rglob("*")` filtered by `is_file()`). -/
def fsFilesUnder : FS → List String → List (List String)
  | [], _ => []
  | e :: rest, p =>
    match e.2, dropLead p e.1 with
    | FNode.file _, some (r :: rs) => (r :: rs) :: fsFilesUnder rest p
    | _, _ => fsFilesUnder rest p

/-- Names of the immediate child regular files of `p`
(`path.iterdir()` filtered by `is_file()`). -/
def fsChildFiles : FS → List String → List String
  | [], _ => []
  | e :: rest, p =>
    match e.2, dropLead p e.1 with
    | FNode.file _, some [n] => n :: fsChildFiles rest p
    | _, _ => fsChildFiles rest p

/-- An archive payload, as the list of member entries that extraction
would write (relative member path, node) — the shape `extractall`,
`unpack_archive` and `copytree` iterate over. -/
abbrev Archive := List (List String × FNode)

/-- Install archive members (or a copied subtree) below `dst`, writing
each member in order and creating parents; members with an empty
relative path (the root itself) are skipped. -/
def fsInstallUnder (fs : FS) (dst : List String) : Archive → FS
  | [] => fs
  | ([], _) :: rest => fsInstallUnder fs dst rest
  | (r :: rs, n) :: rest => fsInstallUnder (fsSetEntry fs (dst ++ r :: rs) n) dst rest

/-- The entries strictly below `p`, re-rooted at `p` (used for
`_copy_contents` / `_copy`, which copy a directory's contents). -/
def fsSubtreeStrict : FS → List String → Archive
  | [], _ => []
  | e :: rest, p =>
    match dropLead p e.1 with
    | some (r :: rs) => (r :: rs, e.2) :: fsSubtreeStrict rest p
    | _ => fsSubtreeStrict rest p

/-- Content of the regular file at `p` (empty for non-files; the flows
only read paths they just wrote). -/
def fsReadFile (fs : FS) (p : List String) : String :=
  match fsLookup fs p with
  | some (FNode.file c) => c
  | _ => ""

/-! ## Python string helpers -/

/-- Python truthiness of an optional string (`None` and `""` are falsy). -/
def truthyS : Option String → Bool
  | some s => s ≠ ""
  | none => false

/-- Python truthiness of an optional list (`None` and `[]` are falsy). -/
def truthyL : Option (List String) → Bool
  | some l => l ≠ []
  | none => false

/-- `a or b` on an optional string versus a default (`None` and `""`
fall through to the default). -/
def pyOrS (o : Option String) (d : String) : String :=
  match o with
  | some s => if s = "" then d else s
  | none => d

/-- `str.strip()`. -/
def pyStrip (s : String) : String :=
  String.mk (((s.toList.dropWhile Char.isWhitespace).reverse.dropWhile Char.isWhitespace).reverse)

/-- Characters after the last `/` (`os.path.basename` on the parsed
path component). -/
def basenameChars (cs : List Char) : List Char :=
  ((cs.reverse).takeWhile (fun c => c ≠ '/')).reverse

/-- `os.path.basename`. -/
def pyBasename (s : String) : String :=
  String.mk (basenameChars s.toList)

/-- Split a character list on `/` (Python `s.split("/")`). -/
def splitOnSlashAux : List Char → List Char → List String
  | [], cur => [String.mk cur.reverse]
  | c :: rest, cur =>
    if c = '/' then String.mk cur.reverse :: splitOnSlashAux rest []
    else splitOnSlashAux rest (c :: cur)

/-- `s.split("/")`, as used to break a sub-directory argument or a repo
slug into path components. -/
def splitOnSlash (s : String) : List String :=
  splitOnSlashAux s.toList []

/-- `Path(s).name`: the final path component. -/
def pyPathName (s : String) : String :=
  match (splitOnSlash s).reverse with
  | n :: _ => n
  | [] => ""

/-- Index of the last `.` in a filename, if any. -/
def lastDotIdx (cs : List Char) : Option Nat :=
  match (cs.reverse).findIdx? (fun c => c = '.') with
  | some j => some (cs.length - 1 - j)
  | none => none

/-- `os.path.splitext` on a bare filename: split at the last dot,
unless every character before it is a dot (leading-dot filenames keep
their dots in the stem). -/
def splitextChars (cs : List Char) : List Char × List Char :=
  match lastDotIdx cs with
  | none => (cs, [])
  | some i =>
    if (cs.take i).any (fun c => c ≠ '.') then (cs.take i, cs.drop i) else (cs, [])

/-- `os.path.splitext` as used on target filenames. -/
def pySplitext (s : String) : String × String :=
  let p := splitextChars s.toList
  (String.mk p.1, String.mk p.2)

/-- Strip the leading character sequence `p` from `s` (used for
anchored regex matching). -/
def stripLead : List Char → List Char → Option (List Char)
  | [], s => some s
  | _ :: _, [] => none
  | p :: ps, c :: cs => if p = c then stripLead ps cs else none

/-- Find the first occurrence of `pat` in the character list and return
the characters after it (`re.search` for a literal). -/
def findAfter (pat : List Char) : List Char → Option (List Char)
  | [] => stripLead pat []
  | c :: rest =>
    match stripLead pat (c :: rest) with
    | some r => some r
    | none => findAfter pat rest

/-- `s.endswith(t)` on strings. -/
def strEndsWith (s t : String) : Bool :=
  (t.toList).isSuffixOf (s.toList)

/-! ## URL parsing (`urllib.parse.urlparse(...).path`) -/

/-- Characters legal in a URL scheme after the initial letter. -/
def schemeChars (c : Char) : Bool :=
  c.isAlphanum || c = '+' || c = '-' || c = '.'

/-- Consume scheme characters up to `:`; fail on anything else. -/
def schemeTail : List Char → Option (List Char)
  | [] => none
  | c :: rest => if c = ':' then some rest else if schemeChars c then schemeTail rest else none

/-- Split a leading `scheme:` off a URL, when present. -/
def splitScheme : List Char → Option (List Char)
  | [] => none
  | c :: rest => if c.isAlpha then schemeTail rest else none

/-- Everything before the first occurrence of `d`. -/
def takeUntilChar (d : Char) : List Char → List Char
  | [] => []
  | c :: rest => if c = d then [] else c :: takeUntilChar d rest

/-- Skip the network-location part: drop characters until the path (`/`)
or query (`?`) begins. -/
def dropNetloc : List Char → List Char
  | [] => []
  | c :: rest => if c = '/' || c = '?' then c :: rest else dropNetloc rest

/-- The `path` component of `urlparse(url)`: strip fragment, scheme,
netloc and query. -/
def urlparsePath (url : String) : String :=
  let cs := takeUntilChar '#' url.toList
  let cs := match splitScheme cs with
    | some rest => rest
    | none => cs
  let cs := match cs with
    | '/' :: '/' :: rest => dropNetloc rest
    | _ => cs
  String.mk (takeUntilChar '?' cs)

/-! ## `Dataset_d/common.py` -/

/-- A JSON-like value appearing in a result's `details` mapping. -/
inductive JVal where
  | str (s : String)
  | arr (xs : List String)
  | bool (b : Bool)
  | nat (n : Nat)
  | null
deriving DecidableEq, Repr

/-- `DownloadResult`: dataset path plus optional open-ended details. -/
structure DownloadResult where
  dataset_path : Pth
  details : Option (List (String × JVal)) := none
deriving DecidableEq, Repr

/-- Python truthiness of the `details` field (`None` and `{}` are falsy). -/
def detailsTruthy : Option (List (String × JVal)) → Bool
  | some l => l ≠ []
  | none => false

/-- Values of the serialised dictionary: a primitive for `dataset_path`,
the nested details mapping for `details`. -/
inductive DictVal where
  | prim (v : JVal)
  | nested (kvs : List (String × JVal))
deriving DecidableEq, Repr

/-- `DownloadResult.as_dict`: always the `dataset_path` key (rendered as
a string); the `details` key only when `self.details` is truthy. -/
def DownloadResult.as_dict (r : DownloadResult) : List (String × DictVal) :=
  let payload := [("dataset_path", DictVal.prim (JVal.str r.dataset_path.render))]
  if detailsTruthy r.details then payload ++ [("details", DictVal.nested (r.details.getD []))]
  else payload

/-- `ensure_destination(path, overwrite)`: fail if the path exists and
`overwrite` is false; otherwise remove any existing file or tree and
create the directory (with parents). -/
def ensure_destination (fs : FS) (path : List String) (overwrite : Bool) : Except String FS :=
  if fsExists fs path then
    if !overwrite then
      Except.error ("Destination " ++ String.intercalate "/" path ++
        " already exists. Pass overwrite=True to replace it.")
    else
      Except.ok (fsMkdirP (fsRemoveTree fs path) path)
  else
    Except.ok (fsMkdirP fs path)

/-! ## `Dataset_d/http_d.py` -/

/-- The collaborators the generic HTTP backend consumes: a streaming
GET (URL to body bytes, or an error snippet on a non-2xx status) and
`shutil.unpack_archive` (filename and bytes to archive members, `none`
on `ReadError`/`ValueError`). -/
structure HTTPWorld where
  fetch : String → Except String String
  unpack : String → String → Option Archive

/-- Keyword parameters of `HTTPDownloader.download`. -/
structure HTTPParams where
  url : Option String := none
  urls : Option (List String) := none
  filename : Option String := none
  overwrite : Bool := false
  extract : Bool := false
  keep_archive : Bool := false

/-- `HTTPDownloader._normalise_urls`. -/
def normalise_urls (url : Option String) (urls : Option (List String)) :
    Except String (List String) :=
  if truthyS url && truthyL urls then
    Except.error "Provide either \x27url\x27 or \x27urls\x27, not both, for HTTP downloads."
  else if truthyS url then
    Except.ok [(url.getD "")]
  else if truthyL urls then
    let normalised := (urls.getD []).filter (fun i => i ≠ "")
    if normalised = [] then Except.error "No URLs provided."
    else Except.ok normalised
  else
    Except.error "A URL is required for HTTP downloads."

/-- `HTTPDownloader._infer_filename`: basename of the URL's parsed path,
defaulting to `download.bin`. -/
def infer_filename (url : String) : String :=
  let name := pyBasename (urlparsePath url)
  if name = "" then "download.bin" else name

/-- `HTTPDownloader._pick_name` on the inferred-name branch: index 1
keeps the name, later indices insert `_<index>` before the extension. -/
def pick_name_inferred (inferred : String) (index : Nat) : String :=
  if index = 1 then inferred
  else (pySplitext inferred).1 ++ "_" ++ toString index ++ (pySplitext inferred).2

/-- `HTTPDownloader._pick_name`. -/
def pick_name (requested : Option String) (inferred : String) (index : Nat) : String :=
  match requested with
  | some r =>
    if r ≠ "" && pyStrip r ≠ "" then
      if index = 1 then r
      else (pySplitext r).1 ++ "_" ++ toString index ++ (pySplitext r).2
    else pick_name_inferred inferred index
  | none => pick_name_inferred inferred index

/-- `HTTPDownloader._maybe_extract`: `unpack_archive` straight into the
destination; on an unpack failure the archive file itself is the result;
otherwise the archive is deleted (unless kept) and the recursive file
listing of the destination is returned. -/
def http_maybe_extract (w : HTTPWorld) (fs : FS) (archive_path destination : Pth)
    (keep_archive : Bool) : FS × List String :=
  match w.unpack archive_path.lastComp (fsReadFile fs archive_path.resolve) with
  | none => (fs, [archive_path.render])
  | some members =>
    let fs := fsInstallUnder fs destination.resolve members
    let fs := if keep_archive then fs else fsUnlink fs archive_path.resolve
    let extracted := (fsFilesUnder fs destination.resolve).map
      (fun rel => (Pth.mk destination.abs (destination.comps ++ rel)).render)
    (fs, if extracted = [] then [destination.render] else extracted)

/-- The per-URL loop of `HTTPDownloader.download`: infer and pick a
target name, stream the body to disk, optionally extract; threads the
filesystem, the request log and the accumulated `saved_files`. -/
def http_download_loop (w : HTTPWorld) (destination : Pth) (p : HTTPParams) :
    List String → Nat → FS → List String → List String →
    (Except String (List String)) × FS × List String
  | [], _, fs, log, saved => (Except.ok saved, fs, log)
  | u :: rest, index, fs, log, saved =>
    let inferred := infer_filename u
    let target_name := pick_name p.filename inferred index
    let file_path := destination.child target_name
    match w.fetch u with
    | Except.error snippet =>
      (Except.error ("HTTP download failed for " ++ u ++ ": " ++ snippet), fs, log ++ [u])
    | Except.ok content =>
      let fs := fsSetEntry fs file_path.resolve (FNode.file content)
      if p.extract then
        let r := http_maybe_extract w fs file_path destination p.keep_archive
        http_download_loop w destination p rest (index + 1) r.1 (log ++ [u]) (saved ++ r.2)
      else
        http_download_loop w destination p rest (index + 1) fs (log ++ [u])
          (saved ++ [file_path.render])

/-- `HTTPDownloader.download`: resolve the destination, validate the URL
parameters, then fetch each target in order. Returns the result, the
final filesystem and the log of GET requests issued. -/
def http_download (w : HTTPWorld) (fs : FS) (destination : Pth) (p : HTTPParams) :
    (Except String DownloadResult) × FS × List String :=
  match ensure_destination fs destination.resolve p.overwrite with
  | Except.error e => (Except.error e, fs, [])
  | Except.ok fs =>
    match normalise_urls p.url p.urls with
    | Except.error e => (Except.error e, fs, [])
    | Except.ok targets =>
      match http_download_loop w destination p targets 1 fs [] [] with
      | (Except.error e, fs, log) => (Except.error e, fs, log)
      | (Except.ok saved, fs, log) =>
        (Except.ok { dataset_path := destination,
                     details := some [("urls", JVal.arr targets), ("files", JVal.arr saved)] },
         fs, log)

/-! ## Filesystem lemmas -/

theorem dropLead_append (p q : List String) : dropLead p (p ++ q) = some q := by
  induction p with
  | nil => rfl
  | cons a as ih => simp [dropLead, ih]

theorem isLead_append (p q : List String) : isLead p (p ++ q) = true := by
  induction p with
  | nil => rfl
  | cons a as ih => simp [isLead, ih]

theorem isLead_refl (p : List String) : isLead p p = true := by
  have h := isLead_append p []
  simpa using h

theorem append_ne_of_ne_nil {p q : List String} (h : q ≠ []) : p ++ q ≠ p := by
  intro hc
  apply h
  have hl := congrArg List.length hc
  simp at hl
  exact hl

theorem fsLookup_append_of_some {fs1 : FS} (fs2 : FS) {p : List String} {n : FNode}
    (h : fsLookup fs1 p = some n) : fsLookup (fs1 ++ fs2) p = some n := by
  induction fs1 with
  | nil => simp [fsLookup] at h
  | cons e rest ih =>
    by_cases he : e.1 = p
    · simp [fsLookup, he] at h ⊢
      exact h
    · simp [fsLookup, he] at h ⊢
      exact ih h

theorem fsLookup_append_of_none {fs1 : FS} (fs2 : FS) {p : List String}
    (h : fsLookup fs1 p = none) : fsLookup (fs1 ++ fs2) p = fsLookup fs2 p := by
  induction fs1 with
  | nil => simp [fsLookup]
  | cons e rest ih =>
    by_cases he : e.1 = p
    · simp [fsLookup, he] at h
    · simp [fsLookup, he] at h ⊢
      exact ih h

theorem fsLookup_unlink_ne {fs : FS} {q p : List String} (h : q ≠ p) :
    fsLookup (fsUnlink fs q) p = fsLookup fs p := by
  induction fs with
  | nil => rfl
  | cons e rest ih =>
    simp only [fsUnlink]
    by_cases he : e.1 = q
    · have hep : ¬ (e.1 = p) := fun hc => h (he.symm.trans hc)
      rw [if_pos he, ih]
      simp only [fsLookup]
      rw [if_neg hep]
    · rw [if_neg he]
      simp only [fsLookup]
      by_cases hep : e.1 = p
      · rw [if_pos hep, if_pos hep]
      · rw [if_neg hep, if_neg hep]
        exact ih

theorem fsLookup_mkdirAlong_of_some {p : List String} {n : FNode} :
    ∀ (rest : List String) (fs : FS) (base : List String),
    fsLookup fs p = some n → fsLookup (fsMkdirAlong fs base rest) p = some n := by
  intro rest
  induction rest with
  | nil =>
    intro fs base h
    simpa [fsMkdirAlong] using h
  | cons m ms ih =>
    intro fs base h
    simp only [fsMkdirAlong]
    by_cases hq : fsExists fs (base ++ [m])
    · rw [if_pos hq]
      exact ih _ _ h
    · rw [if_neg hq]
      exact ih _ _ (fsLookup_append_of_some _ h)

theorem fsLookup_mkdirP_of_some {fs : FS} {p q : List String} {n : FNode}
    (h : fsLookup fs p = some n) : fsLookup (fsMkdirP fs q) p = some n :=
  fsLookup_mkdirAlong_of_some q fs [] h

theorem fsLookup_mkdirAlong_missing :
    ∀ (rest : List String) (fs : FS) (base : List String), rest ≠ [] →
    fsLookup fs (base ++ rest) = none →
    fsLookup (fsMkdirAlong fs base rest) (base ++ rest) = some FNode.dirMark := by
  intro rest
  induction rest with
  | nil =>
    intro fs base hne _
    exact absurd rfl hne
  | cons m ms ih =>
    intro fs base _ h
    cases ms with
    | nil =>
      simp only [fsMkdirAlong]
      have hq : ¬ (fsExists fs (base ++ [m]) = true) := by
        simp [fsExists, h]
      rw [if_neg hq]
      rw [fsLookup_append_of_none _ h]
      simp [fsLookup]
    | cons m2 ms2 =>
      have hsh : base ++ m :: m2 :: ms2 = (base ++ [m]) ++ m2 :: ms2 := by simp
      simp only [fsMkdirAlong]
      by_cases hq : fsExists fs (base ++ [m])
      · rw [if_pos hq, hsh]
        apply ih
        · simp
        · rw [← hsh]
          exact h
      · rw [if_neg hq, hsh]
        have h2 : fsLookup fs ((base ++ [m]) ++ m2 :: ms2) = none := by
          rw [← hsh]
          exact h
        apply ih
        · simp
        · rw [fsLookup_append_of_none _ h2]
          have hd : ¬ ((base ++ [m] : List String) = (base ++ [m]) ++ m2 :: ms2) := by
            intro hc
            exact append_ne_of_ne_nil (by simp) hc.symm
          simp [fsLookup, hd]

theorem fsLookup_mkdirP_missing {fs : FS} {p : List String} (hne : p ≠ [])
    (h : fsLookup fs p = none) : fsLookup (fsMkdirP fs p) p = some FNode.dirMark := by
  have hres := fsLookup_mkdirAlong_missing p fs [] hne (by simpa using h)
  simpa [fsMkdirP] using hres

theorem fsLookup_removeTree_lead {fs : FS} {p q : List String} (h : isLead p q = true) :
    fsLookup (fsRemoveTree fs p) q = none := by
  induction fs with
  | nil => rfl
  | cons e rest ih =>
    simp only [fsRemoveTree]
    by_cases he : isLead p e.1
    · rw [if_pos he]
      exact ih
    · rw [if_neg he]
      have heq : ¬ (e.1 = q) := by
        intro hc
        rw [hc] at he
        exact he h
      simp only [fsLookup]
      rw [if_neg heq]
      exact ih

theorem fsLookup_removeTree_not_lead {fs : FS} {p q : List String}
    (h : isLead p q = false) : fsLookup (fsRemoveTree fs p) q = fsLookup fs q := by
  induction fs with
  | nil => rfl
  | cons e rest ih =>
    simp only [fsRemoveTree]
    by_cases he : isLead p e.1
    · have heq : ¬ (e.1 = q) := by
        intro hc
        rw [hc] at he
        simp [he] at h
      rw [if_pos he, ih]
      simp only [fsLookup]
      rw [if_neg heq]
    · rw [if_neg he]
      simp only [fsLookup]
      by_cases heq : e.1 = q
      · rw [if_pos heq, if_pos heq]
      · rw [if_neg heq, if_neg heq]
        exact ih

theorem ensure_destination_ok_lookup {fs fs' : FS} {p : List String} {ow : Bool}
    (hne : p ≠ []) (h : ensure_destination fs p ow = Except.ok fs') :
    fsLookup fs' p = some FNode.dirMark := by
  unfold ensure_destination at h
  by_cases hex : fsExists fs p
  · rw [if_pos hex] at h
    cases ow with
    | false => simp at h
    | true =>
      simp at h
      subst h
      refine fsLookup_mkdirP_missing hne ?_
      exact fsLookup_removeTree_lead (isLead_refl p)
  · rw [if_neg hex] at h
    simp at h
    subst h
    refine fsLookup_mkdirP_missing hne ?_
    cases hl : fsLookup fs p with
    | none => rfl
    | some v => exact absurd (show fsExists fs p = true by simp [fsExists, hl]) hex

theorem fsLookup_setEntry_of_some {fs : FS} {p q : List String} {m n : FNode}
    (hne : q ≠ p) (h : fsLookup fs p = some m) :
    fsLookup (fsSetEntry fs q n) p = some m := by
  unfold fsSetEntry
  refine fsLookup_append_of_some _ ?_
  rw [fsLookup_unlink_ne hne]
  exact fsLookup_mkdirP_of_some h

theorem fsLookup_installUnder_of_some {p dst : List String} {m : FNode} :
    ∀ (E : Archive) (fs : FS),
    (∀ r rs nd, (r :: rs, nd) ∈ E → ¬ (dst ++ r :: rs = p)) →
    fsLookup fs p = some m → fsLookup (fsInstallUnder fs dst E) p = some m := by
  intro E
  induction E with
  | nil =>
    intro fs _ h
    simpa [fsInstallUnder] using h
  | cons e rest ih =>
    intro fs hne h
    rcases e with ⟨rel, nd⟩
    cases rel with
    | nil =>
      simp only [fsInstallUnder]
      exact ih fs (fun r rs n hr => hne r rs n (List.mem_cons_of_mem _ hr)) h
    | cons r rs =>
      simp only [fsInstallUnder]
      refine ih _ (fun r2 rs2 n2 hr => hne r2 rs2 n2 (List.mem_cons_of_mem _ hr)) ?_
      exact fsLookup_setEntry_of_some (hne r rs nd (List.mem_cons_self _ _)) h

theorem fsLookup_installUnder_dst {fs : FS} {dst : List String} {m : FNode}
    (E : Archive) (h : fsLookup fs dst = some m) :
    fsLookup (fsInstallUnder fs dst E) dst = some m := by
  refine fsLookup_installUnder_of_some E fs ?_ h
  intro r rs nd _ hc
  exact append_ne_of_ne_nil (by simp) hc

/-! ## `Dataset_d/gh_d.py` -/

/-- A release asset as returned by the release-metadata endpoint
(`item.get("name")`, `item.get("url")`). -/
structure GHAsset where
  name : String
  url : Option String
deriving DecidableEq, Repr

/-- The collaborators the GitHub backend consumes: the zipball endpoint,
the release-metadata endpoint, the asset binary endpoint (each returning
body bytes or a non-2xx snippet), and `zipfile.ZipFile(...).extractall`
(bytes to members, or the `BadZipFile` message). -/
structure GHWorld where
  zipball : String → String → Except String String
  release : String → String → Except String (List GHAsset)
  assetFetch : String → Except String String
  unzip : String → Except String Archive

/-- On-disk state threaded through a GitHub download: the filesystem,
the live `NamedTemporaryFile(delete=False)` files (name and content),
the live `TemporaryDirectory` handles, and a counter generating fresh
temporary names. -/
structure GHSt where
  fs : FS
  temps : List (String × String)
  tmpDirs : List Nat
  counter : Nat
deriving DecidableEq, Repr

/-- Content of a live temporary file. -/
def lookupTemp : List (String × String) → String → Option String
  | [], _ => none
  | e :: rest, n => if e.1 = n then some e.2 else lookupTemp rest n

/-- `unlink` of a temporary file. -/
def removeTemp : List (String × String) → String → List (String × String)
  | [], _ => []
  | e :: rest, n => if e.1 = n then removeTemp rest n else e :: removeTemp rest n

/-- Keyword parameters of `GitHubDownloader.download`. -/
structure GHParams where
  repo : String
  ref : String := "main"
  subdir : Option String := none
  release_tag : Option String := none
  asset_name : Option String := none
  overwrite : Bool := false
  extract : Bool := true
  keep_archive : Bool := false

/-- `GitHubDownloader._download_repo_archive`: GET the zipball, then
stream it into a fresh `NamedTemporaryFile(suffix=".zip", delete=False)`. -/
def gh_download_repo_archive (w : GHWorld) (st : GHSt) (repo ref : String) :
    (Except String String) × GHSt :=
  let url := "https://api.github.com/repos/" ++ repo ++ "/zipball/" ++ ref
  match w.zipball repo ref with
  | Except.error snippet =>
    (Except.error ("GitHub request to " ++ url ++ " failed: " ++ snippet), st)
  | Except.ok bytes =>
    let name := "tmp" ++ toString st.counter ++ ".zip"
    (Except.ok name,
     { st with temps := st.temps ++ [(name, bytes)], counter := st.counter + 1 })

/-- `GitHubDownloader._download_release_asset`: resolve the release,
find the named asset, then stream its binary to a fresh
`NamedTemporaryFile(suffix=f"_{asset_name}", delete=False)`. -/
def gh_download_release_asset (w : GHWorld) (st : GHSt)
    (repo release_tag asset_name : String) :
    (Except String (String × String)) × GHSt :=
  let url := "https://api.github.com/repos/" ++ repo ++ "/releases/tags/" ++ release_tag
  match w.release repo release_tag with
  | Except.error snippet =>
    (Except.error ("GitHub request to " ++ url ++ " failed: " ++ snippet), st)
  | Except.ok assets =>
    match assets.find? (fun a => a.name = asset_name) with
    | none =>
      (Except.error ("Asset \x27" ++ asset_name ++ "\x27 not found in release " ++
        release_tag ++ "."), st)
    | some asset =>
      match asset.url with
      | none => (Except.error "Release asset URL is missing.", st)
      | some aurl =>
        if aurl = "" then (Except.error "Release asset URL is missing.", st)
        else
          match w.assetFetch aurl with
          | Except.error snippet =>
            (Except.error ("GitHub request to " ++ aurl ++ " failed: " ++ snippet), st)
          | Except.ok bytes =>
            let name := "tmp" ++ toString st.counter ++ "_" ++ asset_name
            (Except.ok (name, asset_name),
             { st with temps := st.temps ++ [(name, bytes)], counter := st.counter + 1 })

/-- `GitHubDownloader._find_single_root`: the subdirectory to copy out
of the extraction scratch directory — the unique directory child when
there is exactly one, an error when there is none, the scratch root
itself otherwise. -/
def gh_find_single_root (tmp : FS) : Except String (List String) :=
  let candidates := (fsChildNames tmp []).filter
    (fun n => fsLookup tmp [n] = some FNode.dirMark)
  match candidates with
  | [c] => Except.ok [c]
  | [] => Except.error "Archive content is empty."
  | _ => Except.ok []

/-- The body of the `with TemporaryDirectory()` block in
`GitHubDownloader._extract_archive`: extract the zip into the scratch
directory, locate the root (and requested sub-directory), clear the
destination and copy the contents across. -/
def gh_extract_body (w : GHWorld) (st : GHSt) (bytes : String) (destination : Pth)
    (subdir : Option String) : (Except String Unit) × GHSt :=
  match w.unzip bytes with
  | Except.error e => (Except.error e, st)
  | Except.ok members =>
    let tmp := fsInstallUnder [] [] members
    match gh_find_single_root tmp with
    | Except.error e => (Except.error e, st)
    | Except.ok root =>
      match subdir with
      | some sd =>
        if fsExists tmp (root ++ splitOnSlash sd) then
          match ensure_destination st.fs destination.resolve true with
          | Except.error e => (Except.error e, st)
          | Except.ok fs =>
            let copied := fsSubtreeStrict tmp (root ++ splitOnSlash sd)
            let fs2 := fsInstallUnder fs destination.resolve copied
            (Except.ok (), { st with fs := fs2 })
        else
          (Except.error ("Sub-directory \x27" ++ sd ++ "\x27 not found in archive."), st)
      | none =>
        match ensure_destination st.fs destination.resolve true with
        | Except.error e => (Except.error e, st)
        | Except.ok fs =>
          let copied := fsSubtreeStrict tmp root
          let fs2 := fsInstallUnder fs destination.resolve copied
          (Except.ok (), { st with fs := fs2 })

/-- `GitHubDownloader._extract_archive`: move the archive into the
destination unextracted when `extract` is false; otherwise run the
scratch-directory extraction (the `TemporaryDirectory` is released on
both exits of the block), then move or delete the temporary archive. -/
def gh_extract_archive (w : GHWorld) (st : GHSt) (archiveName : String)
    (destination : Pth) (subdir : Option String) (keep_archive extract : Bool)
    (archive_label : Option String) : (Except String DownloadResult) × GHSt :=
  match lookupTemp st.temps archiveName with
  | none => (Except.error "temporary archive file is missing", st)
  | some bytes =>
    if !extract then
      let final_name := archive_label.getD archiveName
      let final_path := destination.child final_name
      let st := { st with
        temps := removeTemp st.temps archiveName,
        fs := fsSetEntry st.fs final_path.resolve (FNode.file bytes) }
      (Except.ok { dataset_path := destination,
                   details := some [("archive", JVal.str final_path.render),
                                    ("extracted", JVal.bool false)] }, st)
    else
      let tmpId := st.counter
      let stIn := { st with tmpDirs := st.tmpDirs ++ [tmpId], counter := st.counter + 1 }
      let body := gh_extract_body w stIn bytes destination subdir
      let stOut := { body.2 with tmpDirs := body.2.tmpDirs.filter (fun i => i ≠ tmpId) }
      match body.1 with
      | Except.error e => (Except.error e, stOut)
      | Except.ok _ =>
        let archive_target := destination.child (archive_label.getD archiveName)
        let stFin :=
          if keep_archive then
            { stOut with
              temps := removeTemp stOut.temps archiveName,
              fs := fsSetEntry stOut.fs archive_target.resolve (FNode.file bytes) }
          else
            { stOut with temps := removeTemp stOut.temps archiveName }
        (Except.ok { dataset_path := destination,
                     details := some [("extracted", JVal.bool true)] }, stFin)

/-- `GitHubDownloader._handle_downloaded_file`: extract a `.zip` release
asset like a repo archive, otherwise move it into the destination under
its asset name. -/
def gh_handle_downloaded_file (w : GHWorld) (st : GHSt) (tempName : String)
    (destination : Pth) (original_name : String) (extract keep_archive : Bool) :
    (Except String DownloadResult) × GHSt :=
  if extract && (pySplitext tempName).2 = ".zip" then
    gh_extract_archive w st tempName destination none keep_archive true
      (some original_name)
  else
    match lookupTemp st.temps tempName with
    | none => (Except.error "temporary archive file is missing", st)
    | some bytes =>
      let target := destination.child original_name
      let st := { st with
        fs := fsSetEntry (fsMkdirP st.fs destination.resolve) target.resolve
          (FNode.file bytes),
        temps := removeTemp st.temps tempName }
      (Except.ok { dataset_path := destination,
                   details := some [("files", JVal.arr [target.render])] }, st)

/-- `GitHubDownloader.download`: resolve the destination, then either
the release-asset flow (requiring `asset_name`) or the repo-archive
flow with its `<name>-<ref>.zip` archive label. -/
def gh_download (w : GHWorld) (fs : FS) (destination : Pth) (p : GHParams) :
    (Except String DownloadResult) × GHSt :=
  match ensure_destination fs destination.resolve p.overwrite with
  | Except.error e =>
    (Except.error e, { fs := fs, temps := [], tmpDirs := [], counter := 0 })
  | Except.ok fs1 =>
    if truthyS p.release_tag then
      if !truthyS p.asset_name then
        (Except.error "asset_name is required when release_tag is provided.",
         { fs := fs1, temps := [], tmpDirs := [], counter := 0 })
      else
        match gh_download_release_asset w
          { fs := fs1, temps := [], tmpDirs := [], counter := 0 } p.repo
          (p.release_tag.getD "") (p.asset_name.getD "") with
        | (Except.error e, st) => (Except.error e, st)
        | (Except.ok r, st) =>
          gh_handle_downloaded_file w st r.1 destination r.2 p.extract p.keep_archive
    else
      match gh_download_repo_archive w
        { fs := fs1, temps := [], tmpDirs := [], counter := 0 } p.repo p.ref with
      | (Except.error e, st) => (Except.error e, st)
      | (Except.ok tempName, st) =>
        gh_extract_archive w st tempName destination p.subdir p.keep_archive
          p.extract (some (pyPathName p.repo ++ "-" ++ p.ref ++ ".zip"))

/-! ## `Dataset_d/drive.py` -/

/-- The data the drive backend reads off a `requests` response: success
flag, text snippet, cookie jar, `Content-Disposition` header, body. -/
structure DriveResp where
  ok : Bool
  snippet : String
  cookies : List (String × String)
  contentDisposition : Option String
  body : String

/-- The collaborators the Google Drive backend consumes: the first GET
of the `uc` endpoint, the confirmed re-request (as a function of the
token), and the zip/tar readers used by `_maybe_extract`. -/
structure DriveWorld where
  first : DriveResp
  second : String → DriveResp
  readZip : String → Except String Archive
  readTar : String → Except String Archive

/-- Is `c` in the character class `[0-9A-Za-z_]` of `CONFIRM_PATTERN`. -/
def isTokenChar (c : Char) : Bool :=
  c.isAlphanum || c = '_'

/-- `CONFIRM_PATTERN.match(name)`: the cookie name starts with
`download_warning` followed by at least one token character. -/
def CONFIRM_match (name : String) : Bool :=
  match stripLead ("download_warning".toList) name.toList with
  | some (c :: _) => isTokenChar c
  | _ => false

/-- `GoogleDriveDownloader._confirm_token`: value of the first cookie
whose name matches the warning pattern. -/
def confirm_token (cookies : List (String × String)) : Option String :=
  match cookies with
  | [] => none
  | kv :: rest => if CONFIRM_match kv.1 then some kv.2 else confirm_token rest

/-- Query parameters of the initial `uc` request. -/
def driveBaseParams (file_id : String) : List (String × String) :=
  [("id", file_id), ("export", "download")]

/-- `GoogleDriveDownloader._fetch`: issue the initial request; when a
confirmation token is present, close it and issue exactly one more
request with `confirm=<token>` added; then check the status. Returns
the resolved response and the log of issued request parameter sets. -/
def drive_fetch (w : DriveWorld) (file_id : String) :
    (Except String DriveResp) × List (List (String × String)) :=
  let params := driveBaseParams file_id
  let resp := w.first
  match confirm_token resp.cookies with
  | some token =>
    let params2 := params ++ [("confirm", token)]
    let resp2 := w.second token
    if resp2.ok then (Except.ok resp2, [params, params2])
    else
      (Except.error ("Failed to download Google Drive file " ++ file_id ++ ": " ++
        resp2.snippet), [params, params2])
  | none =>
    if resp.ok then (Except.ok resp, [params])
    else
      (Except.error ("Failed to download Google Drive file " ++ file_id ++ ": " ++
        resp.snippet), [params])

/-- `GoogleDriveDownloader._infer_filename`: the group of
`filename="?([^";]+)"?` searched in the `Content-Disposition` header. -/
def drive_infer_filename (r : DriveResp) : Option String :=
  match r.contentDisposition with
  | none => none
  | some d =>
    match findAfter ("filename=".toList) d.toList with
    | none => none
    | some rest =>
      let rest' := match rest with
        | '"' :: t => t
        | t => t
      let namePart := rest'.takeWhile (fun c => !(c = '"' || c = ';'))
      if namePart = [] then none else some (String.mk namePart)

/-- ASCII lowering of one character, written structurally so the kernel
can evaluate it on the suffixes we compare. -/
def lowerChar (ch : Char) : Char :=
  if 'A' ≤ ch && ch ≤ 'Z' then Char.ofNat (ch.toNat + 32) else ch

/-- `str.lower()` (ASCII). -/
def strToLower (s : String) : String :=
  String.mk (s.toList.map lowerChar)

/-- `GoogleDriveDownloader._maybe_extract`: dispatch on the archive
suffix (`.zip` via zipfile, tar-family via tarfile, otherwise a warning
and `extracted=False`), record the member listing, and delete the
archive unless kept. -/
def drive_maybe_extract (w : DriveWorld) (fs : FS) (archive_path destination : Pth)
    (keep_archive : Bool) : Except String (FS × List (String × JVal)) :=
  if strToLower (pySplitext archive_path.lastComp).2 = ".zip" then
    match w.readZip (fsReadFile fs archive_path.resolve) with
    | Except.error e => Except.error e
    | Except.ok members =>
      let fs := fsInstallUnder fs destination.resolve members
      let extracted_files := members.map
        (fun m => (Pth.mk destination.abs (destination.comps ++ m.1)).render)
      let fs := if keep_archive then fs else fsUnlink fs archive_path.resolve
      Except.ok (fs, [("extracted", JVal.bool true),
        ("files", if extracted_files = [] then JVal.null else JVal.arr extracted_files)])
  else if strToLower (pySplitext archive_path.lastComp).2 = ".tar" ||
      strToLower (pySplitext archive_path.lastComp).2 = ".gz" ||
      strToLower (pySplitext archive_path.lastComp).2 = ".tgz" ||
      strToLower (pySplitext archive_path.lastComp).2 = ".bz2" then
    match w.readTar (fsReadFile fs archive_path.resolve) with
    | Except.error e => Except.error e
    | Except.ok members =>
      let fs := fsInstallUnder fs destination.resolve members
      let extracted_files := members.map
        (fun m => (Pth.mk destination.abs (destination.comps ++ m.1)).render)
      let fs := if keep_archive then fs else fsUnlink fs archive_path.resolve
      Except.ok (fs, [("extracted", JVal.bool true),
        ("files", if extracted_files = [] then JVal.null else JVal.arr extracted_files)])
  else
    Except.ok (fs, [("extracted", JVal.bool false)])

/-- `dict.update`: replace values of existing keys in place, append new
keys at the end. -/
def assocSet (l : List (String × JVal)) (k : String) (v : JVal) : List (String × JVal) :=
  if (l.find? (fun e => e.1 = k)).isSome then
    l.map (fun e => if e.1 = k then (k, v) else e)
  else l ++ [(k, v)]

/-- Apply `dict.update(extra)` to a details mapping. -/
def detailsUpdate (base : List (String × JVal)) : List (String × JVal) → List (String × JVal)
  | [] => base
  | kv :: rest => detailsUpdate (assocSet base kv.1 kv.2) rest

/-- `GoogleDriveDownloader.download`: resolve the destination, fetch
(with the confirmation flow), stream to the chosen filename, then
optionally extract. Returns the result, filesystem and request log. -/
def drive_download (w : DriveWorld) (fs : FS) (destination : Pth) (file_id : String)
    (file_name : Option String) (extract overwrite keep_archive : Bool) :
    (Except String DownloadResult) × FS × List (List (String × String)) :=
  match ensure_destination fs destination.resolve overwrite with
  | Except.error e => (Except.error e, fs, [])
  | Except.ok fs =>
    match drive_fetch w file_id with
    | (Except.error e, log) => (Except.error e, fs, log)
    | (Except.ok resp, log) =>
      let inferred := pyOrS (drive_infer_filename resp) (file_id ++ ".bin")
      let target_name := pyOrS file_name inferred
      let target_path := destination.child target_name
      let fs := fsSetEntry fs target_path.resolve (FNode.file resp.body)
      let details0 := [("file_id", JVal.str file_id),
                       ("files", JVal.arr [target_path.render])]
      if extract then
        match drive_maybe_extract w fs target_path destination keep_archive with
        | Except.error e => (Except.error e, fs, log)
        | Except.ok r =>
          (Except.ok { dataset_path := destination,
                       details := some (detailsUpdate details0 r.2) }, r.1, log)
      else
        (Except.ok { dataset_path := destination, details := some details0 }, fs, log)

/-! ## `Dataset_d/kaggle_d.py` -/

/-- `KaggleDownloader.__init__`: the explicit executable argument, or
`shutil.which("kaggle")`; failing when neither yields a truthy path. -/
def kaggle_init (kaggle_executable : Option String) (which_kaggle : Option String) :
    Except String String :=
  let executable := if truthyS kaggle_executable then kaggle_executable else which_kaggle
  if truthyS executable then Except.ok (executable.getD "")
  else
    Except.error ("Kaggle CLI not found. Install the \x27kaggle\x27 package and " ++
      "set up API credentials.")

/-- What `subprocess.run` returns for the CLI invocation, plus the
files the CLI wrote below the destination. -/
structure KaggleProc where
  returncode : Int
  stdout : String
  stderr : String
  writes : Archive

/-- The collaborator of the Kaggle backend: the CLI subprocess as a
function of the full command line. -/
structure KaggleWorld where
  run : List String → KaggleProc

/-- `KaggleDownloader._build_command`: exactly one of dataset or
competition, then the `kaggle ... download -p <dest> [--unzip] [-f ...]`
command line ending in the identifier. -/
def kaggle_build_command (executable : String) (dataset competition : Option String)
    (files : Option (List String)) (unzip : Bool) (destination : Pth)
    (extra_args : Option (List String)) : Except String (List String) :=
  if truthyS dataset = truthyS competition then
    Except.error ("Specify exactly one of \x27dataset\x27 or \x27competition\x27 for " ++
      "Kaggle downloads.")
  else
    let head := if truthyS dataset then ["datasets", "download"]
      else ["competitions", "download"]
    let identifier := if truthyS dataset then dataset.getD "" else competition.getD ""
    let cmd := [executable] ++ head ++ ["-p", destination.render] ++
      (if unzip then ["--unzip"] else []) ++
      ((files.getD []).flatMap (fun item => ["-f", item])) ++
      (extra_args.getD []) ++ [identifier]
    Except.ok cmd

/-- `KaggleDownloader._cleanup_archives`: delete the `*.zip` files that
are immediate children of the destination, unless archives are kept. -/
def kaggle_cleanup_archives : FS → List String → Bool → FS
  | [], _, _ => []
  | e :: rest, dest, keep =>
    match e.2, dropLead dest e.1 with
    | FNode.file _, some [n] =>
      if strEndsWith n ".zip" && !keep then kaggle_cleanup_archives rest dest keep
      else e :: kaggle_cleanup_archives rest dest keep
    | _, _ => e :: kaggle_cleanup_archives rest dest keep

/-- `KaggleDownloader._build_details`: command, count and list of the
destination's immediate child files. -/
def kaggle_build_details (fs : FS) (destination : Pth) (command : List String) :
    List (String × JVal) :=
  let files := (fsChildFiles fs destination.resolve).map
    (fun n => (destination.child n).render)
  [("command", JVal.arr command), ("file_count", JVal.nat files.length),
   ("files", JVal.arr files)]

/-- `KaggleDownloader.download`: resolve the destination, build and run
the CLI command, raise with the stripped stderr (or stdout) on non-zero
exit, then clean up archives and report details. Returns the result,
the filesystem and the log of commands run. -/
def kaggle_download (w : KaggleWorld) (fs : FS) (destination : Pth) (executable : String)
    (dataset competition : Option String) (files : Option (List String))
    (unzip overwrite keep_archive : Bool) (extra_args : Option (List String)) :
    (Except String DownloadResult) × FS × List (List String) :=
  match ensure_destination fs destination.resolve overwrite with
  | Except.error e => (Except.error e, fs, [])
  | Except.ok fs =>
    match kaggle_build_command executable dataset competition files unzip destination
      extra_args with
    | Except.error e => (Except.error e, fs, [])
    | Except.ok command =>
      let proc := w.run command
      let fs := fsInstallUnder fs destination.resolve proc.writes
      if proc.returncode ≠ 0 then
        let message := if pyStrip proc.stderr ≠ "" then pyStrip proc.stderr
          else pyStrip proc.stdout
        (Except.error ("Kaggle CLI failed: " ++ message), fs, [command])
      else
        let fs := if unzip then kaggle_cleanup_archives fs destination.resolve keep_archive
          else fs
        (Except.ok { dataset_path := destination,
                     details := some (kaggle_build_details fs destination command) },
         fs, [command])

/-! ## `Dataset_d/local_d.py` -/

/-- `LocalDatasetImporter._prepare_for_symlink`: an existing destination
needs `overwrite`; remove it (rmtree for a real directory, unlink
otherwise) and create the parent directories. -/
def local_prepare_for_symlink (fs : FS) (destination : Pth) (overwrite : Bool) :
    Except String FS :=
  if fsExists fs destination.resolve then
    if !overwrite then
      Except.error ("Destination already exists. Use overwrite=True " ++
        "to replace it with a symlink.")
    else
      Except.ok (fsMkdirP (fsRemoveTree fs destination.resolve)
        destination.resolve.dropLast)
  else
    Except.ok (fsMkdirP fs destination.resolve.dropLast)

/-- `LocalDatasetImporter._copy`: copy a directory's contents (or a
single file) into the destination. -/
def local_copy (fs : FS) (source destination : Pth) : FS :=
  match fsLookup fs source.resolve with
  | some FNode.dirMark =>
    fsInstallUnder fs destination.resolve (fsSubtreeStrict fs source.resolve)
  | some (FNode.file c) =>
    fsSetEntry fs (destination.child source.lastComp).resolve (FNode.file c)
  | _ => fs

/-- `LocalDatasetImporter.download`: check the source exists, then
either symlink the destination to it or copy into a fresh destination. -/
def local_download (fs : FS) (destination : Pth) (source : Pth)
    (overwrite symlink : Bool) : (Except String DownloadResult) × FS :=
  if !(fsExists fs source.resolve) then
    (Except.error ("Source path " ++ source.render ++ " does not exist."), fs)
  else
    let details := some [("source", JVal.str source.render),
                         ("symlink", JVal.bool symlink)]
    if symlink then
      match local_prepare_for_symlink fs destination overwrite with
      | Except.error e => (Except.error e, fs)
      | Except.ok fs =>
        let fs := fs ++ [(destination.resolve, FNode.link source.resolve)]
        (Except.ok { dataset_path := destination, details := details }, fs)
    else
      match ensure_destination fs destination.resolve overwrite with
      | Except.error e => (Except.error e, fs)
      | Except.ok fs =>
        (Except.ok { dataset_path := destination, details := details },
         local_copy fs source destination)

/-! ## `Dataset_d/s3_d.py` -/

/-- The collaborators of the S3 backend: `client.download_file`
(bucket, key, optional version, returning the object bytes or the
client exception text) and `shutil.unpack_archive`. -/
structure S3World where
  download_file : String → String → Option String → Except String String
  unpack : String → String → Option Archive

/-- `S3Downloader._extract_archive`: identical fallback-on-ReadError
extraction to the HTTP backend. -/
def s3_extract_archive (w : S3World) (fs : FS) (archive_path destination : Pth)
    (keep_archive : Bool) : FS × List String :=
  match w.unpack archive_path.lastComp (fsReadFile fs archive_path.resolve) with
  | none => (fs, [archive_path.render])
  | some members =>
    let fs := fsInstallUnder fs destination.resolve members
    let fs := if keep_archive then fs else fsUnlink fs archive_path.resolve
    ((fs), (fsFilesUnder fs destination.resolve).map
      (fun rel => (Pth.mk destination.abs (destination.comps ++ rel)).render))

/-- `S3Downloader.download`: resolve the destination, fetch the object
into `filename or Path(key).name or "s3_object"`, optionally extract. -/
def s3_download (w : S3World) (fs : FS) (destination : Pth) (bucket key : String)
    (version_id filename : Option String) (extract overwrite keep_archive : Bool) :
    (Except String DownloadResult) × FS :=
  match ensure_destination fs destination.resolve overwrite with
  | Except.error e => (Except.error e, fs)
  | Except.ok fs =>
    let target_name := pyOrS filename (let kn := pyPathName key
      if kn = "" then "s3_object" else kn)
    let target_path := destination.child target_name
    match w.download_file bucket key version_id with
    | Except.error e =>
      (Except.error ("Failed to download s3://" ++ bucket ++ "/" ++ key ++ ": " ++ e), fs)
    | Except.ok content =>
      let fs := fsSetEntry fs target_path.resolve (FNode.file content)
      let files0 := [target_path.render]
      let r := if extract then s3_extract_archive w fs target_path destination keep_archive
        else (fs, files0)
      (Except.ok { dataset_path := destination,
                   details := some [("bucket", JVal.str bucket), ("key", JVal.str key),
                                    ("files", JVal.arr r.2)] }, r.1)

/-! ## `Dataset_d/hf_d.py` -/

/-- The collaborator of the Hugging Face backend:
`huggingface_hub.snapshot_download`, returning the resolved path and
the files it wrote below `local_dir`, or the wrapped client error. -/
structure HFWorld where
  snapshot : String → String → String → Except String (String × Archive)

/-- `HuggingFaceDownloader.download`: resolve the destination, snapshot
into it, wrap any client failure, then report the recursive file count. -/
def hf_download (w : HFWorld) (fs : FS) (destination : Pth)
    (repo_id : String) (repo_type : String) (revision : String) (overwrite : Bool) :
    (Except String DownloadResult) × FS :=
  match ensure_destination fs destination.resolve overwrite with
  | Except.error e => (Except.error e, fs)
  | Except.ok fs =>
    match w.snapshot repo_id repo_type revision with
    | Except.error e =>
      (Except.error ("Failed to download " ++ repo_id ++ " from Hugging Face: " ++ e), fs)
    | Except.ok r =>
      let fs := fsInstallUnder fs destination.resolve r.2
      let file_count := (fsFilesUnder fs destination.resolve).length
      (Except.ok { dataset_path := destination,
                   details := some [("repo_id", JVal.str repo_id),
                                    ("revision", JVal.str revision),
                                    ("resolved_path", JVal.str r.1),
                                    ("file_count", JVal.nat file_count)] }, fs)

/-! ## Result helpers and auxiliary lemmas -/

instance exceptDecEq {ε α : Type} [DecidableEq ε] [DecidableEq α] :
    DecidableEq (Except ε α) := fun a b =>
  match a, b with
  | Except.ok x, Except.ok y =>
    if h : x = y then isTrue (by rw [h])
    else isFalse (by intro hc; cases hc; exact h rfl)
  | Except.error x, Except.error y =>
    if h : x = y then isTrue (by rw [h])
    else isFalse (by intro hc; cases hc; exact h rfl)
  | Except.ok _, Except.error _ => isFalse (by intro hc; cases hc)
  | Except.error _, Except.ok _ => isFalse (by intro hc; cases hc)

/-- Did the call return without raising. -/
def exceptIsOk {ε α : Type} : Except ε α → Bool
  | Except.ok _ => true
  | Except.error _ => false

/-- The `dataset_path` of a successful result. -/
def resultPath : Except String DownloadResult → Option Pth
  | Except.ok r => some r.dataset_path
  | Except.error _ => none

theorem dropLead_self (p : List String) : dropLead p p = some [] := by
  have h := dropLead_append p []
  simpa using h

theorem child_resolve_ne (d : Pth) (n : String) : (d.child n).resolve ≠ d.resolve := by
  unfold Pth.child Pth.resolve
  intro hc
  simp at hc

theorem removeTemp_append_one (ts : List (String × String)) (n b : String) :
    removeTemp (ts ++ [(n, b)]) n = removeTemp ts n := by
  induction ts with
  | nil => simp [removeTemp]
  | cons e rest ih =>
    by_cases he : e.1 = n
    · simp [removeTemp, he, ih]
    · simp [removeTemp, he, ih]

theorem fsLookup_append_one_self (fs : FS) (p : List String) (n : FNode) :
    (fsLookup (fs ++ [(p, n)]) p).isSome = true := by
  cases h : fsLookup fs p with
  | some v => simp [fsLookup_append_of_some _ h]
  | none =>
    rw [fsLookup_append_of_none _ h]
    simp [fsLookup]

theorem fsLookup_mkdirAlong_long {q : List String} :
    ∀ (rest : List String) (fs : FS) (base : List String),
    base.length + rest.length < q.length →
    fsLookup (fsMkdirAlong fs base rest) q = fsLookup fs q := by
  intro rest
  induction rest with
  | nil =>
    intro fs base _
    rfl
  | cons m ms ih =>
    intro fs base hlen
    have hlen2 : (base ++ [m]).length + ms.length < q.length := by
      simp only [List.length_append, List.length_cons, List.length_nil] at hlen ⊢
      omega
    simp only [fsMkdirAlong]
    by_cases hq : fsExists fs (base ++ [m])
    · rw [if_pos hq]
      rw [ih _ _ hlen2]
    · rw [if_neg hq]
      rw [ih _ _ hlen2]
      have hne : ¬ ((base ++ [m] : List String) = q) := by
        intro hc
        have := congrArg List.length hc
        simp at this hlen
        omega
      cases hfq : fsLookup fs q with
      | some v => rw [fsLookup_append_of_some _ hfq]
      | none =>
        rw [fsLookup_append_of_none _ hfq]
        simp [fsLookup, hne]

theorem fsLookup_mkdirP_long {fs : FS} {p q : List String}
    (h : p.length < q.length) : fsLookup (fsMkdirP fs p) q = fsLookup fs q := by
  unfold fsMkdirP
  exact fsLookup_mkdirAlong_long p fs [] (by simpa using h)

theorem ensure_destination_overwrite_clears {fs fs' : FS} {p : List String}
    (hex : fsExists fs p = true) (h : ensure_destination fs p true = Except.ok fs')
    (x : String) : fsLookup fs' (p ++ [x]) = none := by
  unfold ensure_destination at h
  rw [if_pos hex] at h
  simp at h
  subst h
  rw [fsLookup_mkdirP_long (by simp)]
  exact fsLookup_removeTree_lead (isLead_append p [x])

theorem pySplitext_concat (s : String) : (pySplitext s).1 ++ (pySplitext s).2 = s := by
  unfold pySplitext splitextChars
  cases h : lastDotIdx s.toList with
  | none =>
    apply String.ext
    simp
  | some i =>
    by_cases ha : (s.toList.take i).any (fun c => c ≠ '.') = true
    · apply String.ext
      simp only [List.any_eq_true, decide_eq_true_eq, String.toList] at ha
      simp [ha]
    · apply String.ext
      simp only [List.any_eq_true, decide_eq_true_eq, String.toList] at ha
      simp [ha]

/-! ## Claim C10 -/

/-- Claim C10: `DownloadResult.as_dict` always includes the
`dataset_path` key (the path rendered as a string), and includes the
`details` key if and only if `details` is truthy — when `details` is
`none` or an empty mapping, the serialised dictionary has no `details`
key at all. -/
theorem C10_as_dict_keys (r : DownloadResult) :
    r.as_dict.map Prod.fst =
      ["dataset_path"] ++ (if detailsTruthy r.details then ["details"] else []) ∧
    r.as_dict.head? =
      some ("dataset_path", DictVal.prim (JVal.str r.dataset_path.render)) := by
  unfold DownloadResult.as_dict
  by_cases h : detailsTruthy r.details = true
  · rw [if_pos h, if_pos h]
    constructor
    · simp
    · simp
  · rw [if_neg h, if_neg h]
    constructor
    · simp
    · simp

/-! ## Claim C7 -/

/-- Claim C7: for the generic HTTP backend with two URLs and no explicit
filename, the chosen target filenames are distinct even when both URLs
yield the same inferred basename — index 1 keeps the inferred name and
every index `i ≥ 2` gets the `_i` suffix inserted before the extension. -/
theorem C7_http_filename_disambiguation (u1 u2 : String) (i : Nat)
    (hsame : infer_filename u1 = infer_filename u2) (hi : 2 ≤ i) :
    pick_name none (infer_filename u1) 1 = infer_filename u1 ∧
    pick_name none (infer_filename u2) i =
      (pySplitext (infer_filename u2)).1 ++ "_" ++ toString i ++
        (pySplitext (infer_filename u2)).2 ∧
    pick_name none (infer_filename u2) i ≠ pick_name none (infer_filename u1) 1 := by
  have hne : ¬ (i = 1) := by omega
  have h1 : pick_name none (infer_filename u1) 1 = infer_filename u1 := by
    simp [pick_name, pick_name_inferred]
  have h2 : pick_name none (infer_filename u2) i =
      (pySplitext (infer_filename u2)).1 ++ "_" ++ toString i ++
        (pySplitext (infer_filename u2)).2 := by
    simp [pick_name, pick_name_inferred, hne]
  refine ⟨h1, h2, ?_⟩
  rw [hsame] at h1 ⊢
  rw [h1, h2]
  intro hc
  have hcat := pySplitext_concat (infer_filename u2)
  have hlen1 := congrArg String.length hc
  have hlen2 := congrArg String.length hcat
  rw [String.length_append, String.length_append, String.length_append] at hlen1
  rw [String.length_append] at hlen2
  have hu : ("_" : String).length = 1 := rfl
  omega

/-! ## Claim C6 -/

/-- Claim C6: for the generic HTTP backend, supplying both `url` and
`urls`, or neither (including an empty `urls` list), makes `download`
raise a `DatasetDownloadError` before any network request is issued
(the request log stays empty). -/
theorem C6_http_url_validation (w : HTTPWorld) (fs : FS) (destination : Pth)
    (p : HTTPParams)
    (h : (truthyS p.url = true ∧ truthyL p.urls = true) ∨
         (truthyS p.url = false ∧ truthyL p.urls = false)) :
    (∃ e, (http_download w fs destination p).1 = Except.error e) ∧
    (http_download w fs destination p).2.2 = [] := by
  unfold http_download
  cases hd : ensure_destination fs destination.resolve p.overwrite with
  | error e => exact ⟨⟨e, rfl⟩, rfl⟩
  | ok fs1 =>
    have hn : ∃ e, normalise_urls p.url p.urls = Except.error e := by
      unfold normalise_urls
      rcases h with ⟨h1, h2⟩ | ⟨h1, h2⟩
      · rw [h1, h2]
        simp
      · rw [h1, h2]
        simp
    rcases hn with ⟨e, he⟩
    rw [he]
    exact ⟨⟨e, rfl⟩, rfl⟩

/-- A trivial HTTP world for witnesses. -/
def trivialHTTPWorld : HTTPWorld :=
  { fetch := fun _ => Except.error "404", unpack := fun _ _ => none }

/-- Witness for C6 at a concrete input: both `url` and `urls` supplied. -/
theorem C6_witness :
    (∃ e, (http_download trivialHTTPWorld [] ⟨true, ["d"]⟩
      { url := some "u", urls := some ["v"] }).1 = Except.error e) ∧
    (http_download trivialHTTPWorld [] ⟨true, ["d"]⟩
      { url := some "u", urls := some ["v"] }).2.2 = [] :=
  C6_http_url_validation trivialHTTPWorld [] ⟨true, ["d"]⟩
    { url := some "u", urls := some ["v"] } (Or.inl ⟨by decide, by decide⟩)

/-- Witness for C7 at concrete URLs sharing the basename `x.zip`. -/
theorem C7_witness :
    infer_filename "https://a/x.zip" = infer_filename "https://b/x.zip" ∧ 2 ≤ 2 ∧
    pick_name none (infer_filename "https://a/x.zip") 1 =
      infer_filename "https://a/x.zip" ∧
    pick_name none (infer_filename "https://b/x.zip") 2 =
      (pySplitext (infer_filename "https://b/x.zip")).1 ++ "_" ++ toString 2 ++
        (pySplitext (infer_filename "https://b/x.zip")).2 ∧
    pick_name none (infer_filename "https://b/x.zip") 2 ≠
      pick_name none (infer_filename "https://a/x.zip") 1 := by
  refine ⟨by decide, by decide, ?_⟩
  exact C7_http_filename_disambiguation "https://a/x.zip" "https://b/x.zip" 2
    (by decide) (by decide)

/-! ## Claim C5 -/

theorem confirm_token_of_matching {cookies : List (String × String)}
    (h : ∃ kv ∈ cookies, CONFIRM_match kv.1 = true) :
    ∃ t, confirm_token cookies = some t := by
  induction cookies with
  | nil =>
    rcases h with ⟨kv, hm, _⟩
    cases hm
  | cons kv rest ih =>
    by_cases hc : CONFIRM_match kv.1 = true
    · exact ⟨kv.2, by simp [confirm_token, hc]⟩
    · rcases h with ⟨kv2, hm, hmt⟩
      rcases List.mem_cons.mp hm with rfl | hm2
      · exact absurd hmt hc
      · rcases ih ⟨kv2, hm2, hmt⟩ with ⟨t, ht⟩
        refine ⟨t, ?_⟩
        simp only [confirm_token]
        rw [if_neg (by simp [hc])]
        exact ht

theorem confirm_token_none_of_no_match {cookies : List (String × String)}
    (h : ∀ kv ∈ cookies, CONFIRM_match kv.1 = false) :
    confirm_token cookies = none := by
  induction cookies with
  | nil => rfl
  | cons kv rest ih =>
    have h1 := h kv (List.mem_cons_self _ _)
    simp only [confirm_token]
    rw [if_neg (by simp [h1])]
    exact ih (fun kv2 hm => h kv2 (List.mem_cons_of_mem _ hm))

/-- Claim C5: for the consumer-drive backend, when the first response
carries a cookie matching the download-warning pattern, `_fetch` issues
exactly one additional request with that cookie's value as the
`confirm` parameter; with no matching cookie, only the initial request
is issued. -/
theorem C5_drive_confirmation_flow (w : DriveWorld) (file_id : String) :
    ((∃ kv ∈ w.first.cookies, CONFIRM_match kv.1 = true) →
      ∃ t, confirm_token w.first.cookies = some t ∧
        (drive_fetch w file_id).2 =
          [driveBaseParams file_id, driveBaseParams file_id ++ [("confirm", t)]]) ∧
    ((∀ kv ∈ w.first.cookies, CONFIRM_match kv.1 = false) →
      (drive_fetch w file_id).2 = [driveBaseParams file_id]) := by
  constructor
  · intro h
    rcases confirm_token_of_matching h with ⟨t, ht⟩
    refine ⟨t, ht, ?_⟩
    simp only [drive_fetch]
    rw [ht]
    by_cases h2 : (w.second t).ok = true
    · simp [h2]
    · simp [h2]
  · intro h
    simp only [drive_fetch]
    rw [confirm_token_none_of_no_match h]
    by_cases h2 : w.first.ok = true
    · simp [h2]
    · simp [h2]

/-- A first response carrying a confirmation cookie. -/
def respWithCookie : DriveResp :=
  { ok := true, snippet := "", cookies := [("download_warning_abc", "tok1")],
    contentDisposition := none, body := "B1" }

/-- A first response with no matching cookie. -/
def respNoCookie : DriveResp :=
  { ok := true, snippet := "", cookies := [("session", "s1")],
    contentDisposition := none, body := "B1" }

/-- The confirmed response, as a function of the token. -/
def respSecond (t : String) : DriveResp :=
  { ok := true, snippet := "", cookies := [],
    contentDisposition := none, body := "B2" ++ t }

/-- A drive world whose first response carries a confirmation cookie. -/
def driveWorldWithCookie : DriveWorld :=
  { first := respWithCookie, second := respSecond,
    readZip := fun _ => Except.error "BadZipFile",
    readTar := fun _ => Except.error "ReadError" }

/-- A drive world whose first response carries no matching cookie. -/
def driveWorldNoCookie : DriveWorld :=
  { first := respNoCookie, second := respSecond,
    readZip := fun _ => Except.error "BadZipFile",
    readTar := fun _ => Except.error "ReadError" }

/-- Witness for C5: both branches at concrete worlds. -/
theorem C5_witness :
    (∃ t, confirm_token driveWorldWithCookie.first.cookies = some t ∧
      (drive_fetch driveWorldWithCookie "FID").2 =
        [driveBaseParams "FID", driveBaseParams "FID" ++ [("confirm", t)]]) ∧
    (drive_fetch driveWorldNoCookie "FID").2 = [driveBaseParams "FID"] := by
  constructor
  · exact (C5_drive_confirmation_flow driveWorldWithCookie "FID").1
      ⟨("download_warning_abc", "tok1"),
       by simp [driveWorldWithCookie, respWithCookie], by decide⟩
  · refine (C5_drive_confirmation_flow driveWorldNoCookie "FID").2 ?_
    intro kv hm
    simp [driveWorldNoCookie, respNoCookie] at hm
    rw [hm]
    decide

/-! ## Claim C8 -/

/-- Claim C8: for the Kaggle backend, a missing CLI on the search path
(no explicit executable, `shutil.which` empty) raises at construction,
before `download` is ever invoked; and whenever the CLI exits non-zero
the raised error carries the stripped captured stderr, falling back to
the stripped stdout when stderr is blank. -/
theorem C8_kaggle_cli_errors (w : KaggleWorld) (fs : FS) (destination : Pth)
    (executable : String) (dataset : Option String) (files : Option (List String))
    (extra_args : Option (List String)) (unzip overwrite keep_archive : Bool)
    (hfresh : fsExists fs destination.resolve = false)
    (hds : truthyS dataset = true)
    (hrc : ∀ c, (w.run c).returncode ≠ 0) :
    kaggle_init none none =
      Except.error ("Kaggle CLI not found. Install the \x27kaggle\x27 package and " ++
        "set up API credentials.") ∧
    ∃ cmd, kaggle_build_command executable dataset none files unzip destination
        extra_args = Except.ok cmd ∧
      (kaggle_download w fs destination executable dataset none files unzip overwrite
          keep_archive extra_args).1 =
        Except.error ("Kaggle CLI failed: " ++
          (if pyStrip (w.run cmd).stderr ≠ "" then pyStrip (w.run cmd).stderr
           else pyStrip (w.run cmd).stdout)) := by
  constructor
  · rfl
  · cases hb : kaggle_build_command executable dataset none files unzip destination
      extra_args with
    | error e =>
      exfalso
      unfold kaggle_build_command at hb
      rw [if_neg (by rw [hds]; decide)] at hb
      simp at hb
    | ok cmd =>
      refine ⟨cmd, rfl, ?_⟩
      unfold kaggle_download
      have hens : ensure_destination fs destination.resolve overwrite =
          Except.ok (fsMkdirP fs destination.resolve) := by
        unfold ensure_destination
        rw [if_neg (by simp [hfresh])]
      rw [hens, hb]
      simp [hrc cmd]

/-- A Kaggle world whose CLI always fails with blank stderr. -/
def kaggleWorldFailing : KaggleWorld :=
  { run := fun _ => { returncode := 1, stdout := " out ", stderr := "  ", writes := [] } }

/-- Witness for C8: concrete failing CLI run surfaces the stripped
stdout (stderr being blank), and the missing-CLI construction error. -/
theorem C8_witness :
    kaggle_init none none =
      Except.error ("Kaggle CLI not found. Install the \x27kaggle\x27 package and " ++
        "set up API credentials.") ∧
    (kaggle_download kaggleWorldFailing [] ⟨true, ["d"]⟩ "kaggle" (some "ds") none none
      true false false none).1 = Except.error "Kaggle CLI failed: out" := by
  have h := C8_kaggle_cli_errors kaggleWorldFailing [] ⟨true, ["d"]⟩ "kaggle" (some "ds")
    none none true false false (by decide) (by decide)
    (fun c => by simp [kaggleWorldFailing])
  refine ⟨h.1, ?_⟩
  rcases h.2 with ⟨cmd, _, hmsg⟩
  rw [hmsg]
  simp [kaggleWorldFailing]
  decide

/-! ## Claim C4 -/

theorem ensure_destination_exists_error {fs : FS} {p : List String}
    (hex : fsExists fs p = true) :
    ∃ e, ensure_destination fs p false = Except.error e := by
  unfold ensure_destination
  rw [if_pos hex]
  simp

theorem local_prepare_exists_error {fs : FS} {d : Pth}
    (hex : fsExists fs d.resolve = true) :
    ∃ e, local_prepare_for_symlink fs d false = Except.error e := by
  unfold local_prepare_for_symlink
  rw [if_pos hex]
  simp

/-- Claim C4: for every backend, calling `download` with
`overwrite=false` against an existing (non-empty) destination raises a
`DatasetDownloadError` and leaves the filesystem — in particular the
destination and its contents — exactly as it was. -/
theorem C4_overwrite_false_precondition (fs : FS) (d : Pth) (nd : FNode)
    (hlook : fsLookup fs d.resolve = some nd)
    (hne : fsChildNames fs d.resolve ≠ []) :
    (∀ (w : HTTPWorld) (p : HTTPParams), p.overwrite = false →
      (∃ e, (http_download w fs d p).1 = Except.error e) ∧
      (http_download w fs d p).2.1 = fs) ∧
    (∀ (w : GHWorld) (p : GHParams), p.overwrite = false →
      (∃ e, (gh_download w fs d p).1 = Except.error e) ∧
      (gh_download w fs d p).2.fs = fs ∧ (gh_download w fs d p).2.temps = []) ∧
    (∀ (w : DriveWorld) (fid : String) (fn : Option String) (ex ka : Bool),
      (∃ e, (drive_download w fs d fid fn ex false ka).1 = Except.error e) ∧
      (drive_download w fs d fid fn ex false ka).2.1 = fs) ∧
    (∀ (w : KaggleWorld) (exe : String) (ds cp : Option String)
        (fl ea : Option (List String)) (uz ka : Bool),
      (∃ e, (kaggle_download w fs d exe ds cp fl uz false ka ea).1 = Except.error e) ∧
      (kaggle_download w fs d exe ds cp fl uz false ka ea).2.1 = fs) ∧
    (∀ (w : S3World) (b k : String) (v fn : Option String) (ex ka : Bool),
      (∃ e, (s3_download w fs d b k v fn ex false ka).1 = Except.error e) ∧
      (s3_download w fs d b k v fn ex false ka).2 = fs) ∧
    (∀ (w : HFWorld) (rid rt rv : String),
      (∃ e, (hf_download w fs d rid rt rv false).1 = Except.error e) ∧
      (hf_download w fs d rid rt rv false).2 = fs) ∧
    (∀ (s : Pth) (sym : Bool),
      (∃ e, (local_download fs d s false sym).1 = Except.error e) ∧
      (local_download fs d s false sym).2 = fs) := by
  have hex : fsExists fs d.resolve = true := by simp [fsExists, hlook]
  rcases ensure_destination_exists_error hex with ⟨e0, he0⟩
  refine ⟨?_, ?_, ?_, ?_, ?_, ?_, ?_⟩
  · intro w p hp
    unfold http_download
    rw [hp, he0]
    exact ⟨⟨e0, rfl⟩, rfl⟩
  · intro w p hp
    unfold gh_download
    rw [hp, he0]
    exact ⟨⟨e0, rfl⟩, rfl, rfl⟩
  · intro w fid fn ex ka
    unfold drive_download
    rw [he0]
    exact ⟨⟨e0, rfl⟩, rfl⟩
  · intro w exe ds cp fl ea uz ka
    unfold kaggle_download
    rw [he0]
    exact ⟨⟨e0, rfl⟩, rfl⟩
  · intro w b k v fn ex ka
    unfold s3_download
    rw [he0]
    exact ⟨⟨e0, rfl⟩, rfl⟩
  · intro w rid rt rv
    unfold hf_download
    rw [he0]
    exact ⟨⟨e0, rfl⟩, rfl⟩
  · intro s sym
    unfold local_download
    by_cases hsrc : fsExists fs s.resolve = true
    · rw [hsrc]
      cases sym with
      | true =>
        rcases local_prepare_exists_error hex with ⟨e1, he1⟩
        simp only [Bool.not_true, Bool.false_eq_true, if_false]
        rw [he1]
        exact ⟨⟨e1, rfl⟩, rfl⟩
      | false =>
        simp only [Bool.not_true, Bool.false_eq_true, if_false]
        rw [he0]
        exact ⟨⟨e0, rfl⟩, rfl⟩
    · have hsrc2 : fsExists fs s.resolve = false := by
        cases h2 : fsExists fs s.resolve with
        | false => rfl
        | true => exact absurd h2 hsrc
      rw [hsrc2]
      exact ⟨⟨_, rfl⟩, rfl⟩

/-- A trivial GitHub world for witnesses. -/
def trivialGHWorld : GHWorld :=
  { zipball := fun _ _ => Except.error "404",
    release := fun _ _ => Except.error "404",
    assetFetch := fun _ => Except.error "404",
    unzip := fun _ => Except.error "BadZipFile" }

/-- A trivial S3 world for witnesses. -/
def trivialS3World : S3World :=
  { download_file := fun _ _ _ => Except.error "NoSuchKey",
    unpack := fun _ _ => none }

/-- A trivial Hugging Face world for witnesses. -/
def trivialHFWorld : HFWorld :=
  { snapshot := fun _ _ _ => Except.error "RepoNotFound" }

/-- An existing non-empty destination used by the C4 witness. -/
def c4fs : FS := [(["/", "d"], FNode.dirMark), (["/", "d", "x"], FNode.file "1")]

/-- Witness for C4: all seven backends error against the pre-populated
destination `c4fs` with `overwrite=false` and leave it untouched. -/
theorem C4_witness :
    ((∃ e, (http_download trivialHTTPWorld c4fs ⟨true, ["d"]⟩ {}).1 = Except.error e) ∧
      (http_download trivialHTTPWorld c4fs ⟨true, ["d"]⟩ {}).2.1 = c4fs) ∧
    ((∃ e, (gh_download trivialGHWorld c4fs ⟨true, ["d"]⟩ { repo := "o/r" }).1 =
        Except.error e) ∧
      (gh_download trivialGHWorld c4fs ⟨true, ["d"]⟩ { repo := "o/r" }).2.fs = c4fs ∧
      (gh_download trivialGHWorld c4fs ⟨true, ["d"]⟩ { repo := "o/r" }).2.temps = []) ∧
    ((∃ e, (drive_download driveWorldNoCookie c4fs ⟨true, ["d"]⟩ "f" none false false
        false).1 = Except.error e) ∧
      (drive_download driveWorldNoCookie c4fs ⟨true, ["d"]⟩ "f" none false false
        false).2.1 = c4fs) ∧
    ((∃ e, (kaggle_download kaggleWorldFailing c4fs ⟨true, ["d"]⟩ "kaggle" (some "ds")
        none none true false false none).1 = Except.error e) ∧
      (kaggle_download kaggleWorldFailing c4fs ⟨true, ["d"]⟩ "kaggle" (some "ds")
        none none true false false none).2.1 = c4fs) ∧
    ((∃ e, (s3_download trivialS3World c4fs ⟨true, ["d"]⟩ "b" "k" none none false false
        false).1 = Except.error e) ∧
      (s3_download trivialS3World c4fs ⟨true, ["d"]⟩ "b" "k" none none false false
        false).2 = c4fs) ∧
    ((∃ e, (hf_download trivialHFWorld c4fs ⟨true, ["d"]⟩ "r" "dataset" "main" false).1 =
        Except.error e) ∧
      (hf_download trivialHFWorld c4fs ⟨true, ["d"]⟩ "r" "dataset" "main" false).2 =
        c4fs) ∧
    ((∃ e, (local_download c4fs ⟨true, ["d"]⟩ ⟨true, ["s"]⟩ false false).1 =
        Except.error e) ∧
      (local_download c4fs ⟨true, ["d"]⟩ ⟨true, ["s"]⟩ false false).2 = c4fs) := by
  have h := C4_overwrite_false_precondition c4fs ⟨true, ["d"]⟩ FNode.dirMark rfl
    (by decide)
  exact ⟨h.1 trivialHTTPWorld {} rfl,
         h.2.1 trivialGHWorld { repo := "o/r" } rfl,
         h.2.2.1 driveWorldNoCookie "f" none false false,
         h.2.2.2.1 kaggleWorldFailing "kaggle" (some "ds") none none none true false,
         h.2.2.2.2.1 trivialS3World "b" "k" none none false false,
         h.2.2.2.2.2.1 trivialHFWorld "r" "dataset" "main",
         h.2.2.2.2.2.2 ⟨true, ["s"]⟩ false⟩

/-! ## Claim C9 -/

theorem ensure_destination_fresh {fs : FS} {p : List String} {ow : Bool}
    (h : fsExists fs p = false) :
    ensure_destination fs p ow = Except.ok (fsMkdirP fs p) := by
  unfold ensure_destination
  rw [if_neg (by simp [h])]

theorem ensure_destination_overwrite {fs : FS} {p : List String}
    (h : fsExists fs p = true) :
    ensure_destination fs p true = Except.ok (fsMkdirP (fsRemoveTree fs p) p) := by
  unfold ensure_destination
  rw [if_pos h]
  rfl

theorem normalise_urls_both {u : Option String} {us : Option (List String)}
    (h1 : truthyS u = true) (h2 : truthyL us = true) :
    normalise_urls u us =
      Except.error "Provide either \x27url\x27 or \x27urls\x27, not both, for HTTP downloads." := by
  unfold normalise_urls
  rw [h1, h2]
  rfl

theorem normalise_urls_neither {u : Option String} {us : Option (List String)}
    (h1 : truthyS u = false) (h2 : truthyL us = false) :
    normalise_urls u us = Except.error "A URL is required for HTTP downloads." := by
  unfold normalise_urls
  rw [h1, h2]
  rfl

theorem kaggle_build_command_error {ds cp : Option String}
    (h : truthyS ds = truthyS cp) (exe : String) (fl : Option (List String))
    (uz : Bool) (d : Pth) (ea : Option (List String)) :
    kaggle_build_command exe ds cp fl uz d ea =
      Except.error ("Specify exactly one of \x27dataset\x27 or \x27competition\x27 for " ++
        "Kaggle downloads.") := by
  unfold kaggle_build_command
  rw [if_pos h]

theorem fsLookup_ensure_fresh {fs : FS} {p : List String} (hres : p ≠ [])
    (h : fsExists fs p = false) :
    fsLookup (fsMkdirP fs p) p = some FNode.dirMark := by
  refine fsLookup_mkdirP_missing hres ?_
  cases hl : fsLookup fs p with
  | none => rfl
  | some v =>
    exfalso
    rw [fsExists, hl] at h
    simp at h

/-- Claim C9: for the generic HTTP and Kaggle backends, `download`
resolves the destination via `ensure_destination` before validating the
backend-specific parameters — the configuration error for both/neither
`url`/`urls` (respectively `dataset`/`competition`) is raised only
after the destination directory was created when missing, or after its
prior contents were deleted when `overwrite=true`. -/
theorem C9_destination_resolved_before_validation (fs : FS) (d : Pth) :
    (∀ (w : HTTPWorld) (p : HTTPParams), fsExists fs d.resolve = false →
      truthyS p.url = true → truthyL p.urls = true →
      (http_download w fs d p).1 =
        Except.error "Provide either \x27url\x27 or \x27urls\x27, not both, for HTTP downloads." ∧
      fsLookup (http_download w fs d p).2.1 d.resolve = some FNode.dirMark ∧
      (http_download w fs d p).2.2 = []) ∧
    (∀ (w : HTTPWorld) (p : HTTPParams), fsExists fs d.resolve = true →
      p.overwrite = true → truthyS p.url = false → truthyL p.urls = false →
      (http_download w fs d p).1 =
        Except.error "A URL is required for HTTP downloads." ∧
      fsLookup (http_download w fs d p).2.1 d.resolve = some FNode.dirMark ∧
      (∀ x, fsLookup (http_download w fs d p).2.1 (d.resolve ++ [x]) = none)) ∧
    (∀ (w : KaggleWorld) (exe : String) (ds cp : Option String)
        (fl ea : Option (List String)) (uz ka : Bool),
      fsExists fs d.resolve = false → truthyS ds = truthyS cp →
      (kaggle_download w fs d exe ds cp fl uz false ka ea).1 =
        Except.error ("Specify exactly one of \x27dataset\x27 or \x27competition\x27 for " ++
          "Kaggle downloads.") ∧
      fsLookup (kaggle_download w fs d exe ds cp fl uz false ka ea).2.1 d.resolve =
        some FNode.dirMark ∧
      (kaggle_download w fs d exe ds cp fl uz false ka ea).2.2 = []) ∧
    (∀ (w : KaggleWorld) (exe : String) (ds cp : Option String)
        (fl ea : Option (List String)) (uz ka : Bool),
      fsExists fs d.resolve = true → truthyS ds = truthyS cp →
      (kaggle_download w fs d exe ds cp fl uz true ka ea).1 =
        Except.error ("Specify exactly one of \x27dataset\x27 or \x27competition\x27 for " ++
          "Kaggle downloads.") ∧
      fsLookup (kaggle_download w fs d exe ds cp fl uz true ka ea).2.1 d.resolve =
        some FNode.dirMark ∧
      (∀ x, fsLookup (kaggle_download w fs d exe ds cp fl uz true ka ea).2.1
        (d.resolve ++ [x]) = none)) := by
  have hres : d.resolve ≠ [] := by simp [Pth.resolve]
  refine ⟨?_, ?_, ?_, ?_⟩
  · intro w p hfr h1 h2
    unfold http_download
    rw [ensure_destination_fresh hfr, normalise_urls_both h1 h2]
    exact ⟨rfl, fsLookup_ensure_fresh hres hfr, rfl⟩
  · intro w p hex ho h1 h2
    unfold http_download
    rw [ho, ensure_destination_overwrite hex, normalise_urls_neither h1 h2]
    refine ⟨rfl, ?_, ?_⟩
    · exact ensure_destination_ok_lookup hres (ensure_destination_overwrite hex)
    · intro x
      exact ensure_destination_overwrite_clears hex (ensure_destination_overwrite hex) x
  · intro w exe ds cp fl ea uz ka hfr hsame
    unfold kaggle_download
    rw [ensure_destination_fresh hfr, kaggle_build_command_error hsame]
    exact ⟨rfl, fsLookup_ensure_fresh hres hfr, rfl⟩
  · intro w exe ds cp fl ea uz ka hex hsame
    unfold kaggle_download
    rw [ensure_destination_overwrite hex, kaggle_build_command_error hsame]
    refine ⟨rfl, ?_, ?_⟩
    · exact ensure_destination_ok_lookup hres (ensure_destination_overwrite hex)
    · intro x
      exact ensure_destination_overwrite_clears hex (ensure_destination_overwrite hex) x

/-- Witness for C9: HTTP with both URL parameters against a fresh
destination errors, yet the destination directory now exists. -/
theorem C9_witness :
    (http_download trivialHTTPWorld [] ⟨true, ["d"]⟩
      { url := some "u", urls := some ["v"] }).1 =
      Except.error "Provide either \x27url\x27 or \x27urls\x27, not both, for HTTP downloads." ∧
    fsLookup (http_download trivialHTTPWorld [] ⟨true, ["d"]⟩
      { url := some "u", urls := some ["v"] }).2.1 (Pth.resolve ⟨true, ["d"]⟩) =
      some FNode.dirMark ∧
    (http_download trivialHTTPWorld [] ⟨true, ["d"]⟩
      { url := some "u", urls := some ["v"] }).2.2 = [] :=
  (C9_destination_resolved_before_validation [] ⟨true, ["d"]⟩).1 trivialHTTPWorld
    { url := some "u", urls := some ["v"] } rfl (by decide) (by decide)

/-! ## Claims C1, C2, C3 — counterexamples -/

/-- Zip members wrapping everything in one top-level directory `X`. -/
def singleRootMembers : Archive :=
  [(["X"], FNode.dirMark), (["X", "f"], FNode.file "hi")]

/-- An HTTP world serving the single-root archive as `d.zip`. -/
def singleRootHTTPWorld : HTTPWorld :=
  { fetch := fun u => if u = "https://h/d.zip" then Except.ok "ZB" else Except.error "404",
    unpack := fun n c =>
      if n = "d.zip" && c = "ZB" then some singleRootMembers else none }

/-- A GitHub world serving the single-root archive as the `o/r@main`
zipball. -/
def singleRootGHWorld : GHWorld :=
  { zipball := fun r f =>
      if r = "o/r" && f = "main" then Except.ok "ZB" else Except.error "404",
    release := fun _ _ => Except.error "404",
    assetFetch := fun _ => Except.error "404",
    unzip := fun c =>
      if c = "ZB" then Except.ok singleRootMembers else Except.error "BadZipFile" }

/-- Claim C1 fails on the code: the generic HTTP backend offers
`extract=true` yet applies no single-root collapse. Extracting an
archive whose only top-level entry is the directory `X` into `/data`
succeeds with `/data`'s immediate children equal to `["X"]` — the
nested `/data/X/f` layout the claim rules out — instead of `X`'s
contents `["f"]`. -/
theorem C1_counterexample :
    exceptIsOk (http_download singleRootHTTPWorld [] ⟨true, ["data"]⟩
      { url := some "https://h/d.zip", extract := true }).1 = true ∧
    fsChildNames (http_download singleRootHTTPWorld [] ⟨true, ["data"]⟩
      { url := some "https://h/d.zip", extract := true }).2.1
      (Pth.resolve ⟨true, ["data"]⟩) = ["X"] ∧
    fsLookup (http_download singleRootHTTPWorld [] ⟨true, ["data"]⟩
      { url := some "https://h/d.zip", extract := true }).2.1
      (Pth.resolve ⟨true, ["data"]⟩ ++ ["X", "f"]) = some (FNode.file "hi") := by
  decide

/-- Claim C2 fails on the code: a repository-archive download whose
requested `subdir` is absent raises after the archive was streamed to a
`NamedTemporaryFile(delete=False)` but before any unlink of it — the
temporary archive file persists on this error exit path. -/
theorem C2_counterexample :
    (gh_download singleRootGHWorld [] ⟨true, ["data"]⟩
      { repo := "o/r", subdir := some "missing" }).1 =
      Except.error "Sub-directory \x27missing\x27 not found in archive." ∧
    (gh_download singleRootGHWorld [] ⟨true, ["data"]⟩
      { repo := "o/r", subdir := some "missing" }).2.temps = [("tmp0.zip", "ZB")] := by
  decide

/-- Claim C3 fails on the code: a successful HTTP download into the
relative destination `data` returns `dataset_path = data` verbatim —
the code never resolves the destination to an absolute path. -/
theorem C3_counterexample :
    (http_download singleRootHTTPWorld [] ⟨false, ["data"]⟩
      { url := some "https://h/d.zip" }).1 =
      Except.ok { dataset_path := ⟨false, ["data"]⟩,
                  details := some [("urls", JVal.arr ["https://h/d.zip"]),
                                   ("files", JVal.arr ["data/d.zip"])] } ∧
    Pth.abs ⟨false, ["data"]⟩ = false := by
  decide

/-! ## Claim C2 — amended -/

theorem gh_extract_body_st (w : GHWorld) (st : GHSt) (b : String) (d : Pth)
    (s : Option String) :
    (gh_extract_body w st b d s).2.temps = st.temps ∧
    (gh_extract_body w st b d s).2.tmpDirs = st.tmpDirs := by
  cases hu : w.unzip b with
  | error e => simp [gh_extract_body, hu]
  | ok members =>
    simp only [gh_extract_body, hu]
    cases hr : gh_find_single_root (fsInstallUnder [] [] members) with
    | error e => simp
    | ok root =>
      cases s with
      | none =>
        cases he : ensure_destination st.fs d.resolve true with
        | error e => simp
        | ok fs1 => simp
      | some sd =>
        by_cases hx : fsExists (fsInstallUnder [] [] members)
            (root ++ splitOnSlash sd) = true
        · cases he : ensure_destination st.fs d.resolve true with
          | error e => simp [hx]
          | ok fs1 => simp [hx]
        · simp [hx]

theorem gh_download_repo_archive_st (w : GHWorld) (st : GHSt) (repo ref : String) :
    (gh_download_repo_archive w st repo ref).2.tmpDirs = st.tmpDirs ∧
    (∀ n, (gh_download_repo_archive w st repo ref).1 = Except.ok n →
      ∃ b, (gh_download_repo_archive w st repo ref).2.temps = st.temps ++ [(n, b)]) ∧
    (∀ e, (gh_download_repo_archive w st repo ref).1 = Except.error e →
      (gh_download_repo_archive w st repo ref).2 = st) := by
  cases hz : w.zipball repo ref with
  | error s => simp [gh_download_repo_archive, hz]
  | ok bytes =>
    simp only [gh_download_repo_archive, hz]
    refine ⟨by simp, ?_, ?_⟩
    · intro n h
      have hn := Except.ok.inj h
      exact ⟨bytes, by rw [← hn]⟩
    · intro e h
      simp at h

theorem gh_download_release_asset_st (w : GHWorld) (st : GHSt)
    (repo tag an : String) :
    (gh_download_release_asset w st repo tag an).2.tmpDirs = st.tmpDirs ∧
    (∀ r, (gh_download_release_asset w st repo tag an).1 = Except.ok r →
      ∃ b, (gh_download_release_asset w st repo tag an).2.temps =
        st.temps ++ [(r.1, b)]) ∧
    (∀ e, (gh_download_release_asset w st repo tag an).1 = Except.error e →
      (gh_download_release_asset w st repo tag an).2 = st) := by
  cases hz : w.release repo tag with
  | error s => simp [gh_download_release_asset, hz]
  | ok assets =>
    simp only [gh_download_release_asset, hz]
    cases hf : assets.find? (fun a => a.name = an) with
    | none => simp [hf]
    | some asset =>
      simp only [hf]
      cases hu : asset.url with
      | none => simp [hu]
      | some aurl =>
        simp only [hu]
        by_cases he : aurl = ""
        · simp [he]
        · rw [if_neg he]
          cases ha : w.assetFetch aurl with
          | error s => simp [ha]
          | ok bytes =>
            simp only [ha]
            refine ⟨by simp, ?_, ?_⟩
            · intro r h
              have hn := Except.ok.inj h
              exact ⟨bytes, by rw [← hn]⟩
            · intro e h
              simp at h

theorem gh_extract_archive_st (w : GHWorld) (st : GHSt) (n : String) (d : Pth)
    (s : Option String) (ka ex : Bool) (lbl : Option String) :
    (st.tmpDirs = [] → (gh_extract_archive w st n d s ka ex lbl).2.tmpDirs = []) ∧
    (exceptIsOk (gh_extract_archive w st n d s ka ex lbl).1 = true →
      (gh_extract_archive w st n d s ka ex lbl).2.temps = removeTemp st.temps n) := by
  cases hl : lookupTemp st.temps n with
  | none => simp [gh_extract_archive, hl, exceptIsOk]
  | some bytes =>
    cases hex : ex with
    | false =>
      simp only [gh_extract_archive, hl, Bool.not_false, if_true]
      constructor
      · intro h
        exact h
      · intro _
        simp
    | true =>
      simp only [gh_extract_archive, hl, Bool.not_true, Bool.false_eq_true, if_false]
      have hb := gh_extract_body_st w
        { st with tmpDirs := st.tmpDirs ++ [st.counter], counter := st.counter + 1 }
        bytes d s
      cases hres : (gh_extract_body w
        { st with tmpDirs := st.tmpDirs ++ [st.counter], counter := st.counter + 1 }
        bytes d s).1 with
      | error e =>
        constructor
        · intro h
          rw [hb.2]
          simp [h]
        · intro h
          simp [exceptIsOk] at h
      | ok u =>
        cases hka : ka with
        | false =>
          constructor
          · intro h
            rw [hb.2]
            simp [h]
          · intro _
            simp [hb.1]
        | true =>
          constructor
          · intro h
            rw [hb.2]
            simp [h]
          · intro _
            simp [hb.1]

theorem gh_handle_downloaded_file_st (w : GHWorld) (st : GHSt) (tn : String)
    (d : Pth) (onm : String) (ex ka : Bool) :
    (st.tmpDirs = [] → (gh_handle_downloaded_file w st tn d onm ex ka).2.tmpDirs = []) ∧
    (exceptIsOk (gh_handle_downloaded_file w st tn d onm ex ka).1 = true →
      (gh_handle_downloaded_file w st tn d onm ex ka).2.temps =
        removeTemp st.temps tn) := by
  simp only [gh_handle_downloaded_file]
  split
  · exact gh_extract_archive_st w st tn d none ka true (some onm)
  · cases hl : lookupTemp st.temps tn with
    | none => simp [exceptIsOk]
    | some bytes =>
      constructor
      · intro h
        exact h
      · intro _
        rfl

/-- Claim C2 (amended): the extraction scratch directory
(`TemporaryDirectory`) is released on every exit path of a GitHub
download, and every successful download removes its temporary archive
file; but on error exits between the temporary file's creation and its
cleanup point (for example a missing requested sub-directory, see the
counterexample) the temporary archive file persists on disk. -/
theorem C2_amended_temp_cleanup (w : GHWorld) (fs : FS) (destination : Pth)
    (p : GHParams) :
    (gh_download w fs destination p).2.tmpDirs = [] ∧
    (exceptIsOk (gh_download w fs destination p).1 = true →
      (gh_download w fs destination p).2.temps = []) := by
  cases he : ensure_destination fs destination.resolve p.overwrite with
  | error e =>
    constructor
    · simp [gh_download, he]
    · intro h
      simp [gh_download, he, exceptIsOk] at h
  | ok fs1 =>
    simp only [gh_download, he]
    cases hrel : truthyS p.release_tag with
    | true =>
      cases han : truthyS p.asset_name with
      | false =>
        constructor
        · rfl
        · intro h
          simp [exceptIsOk] at h
      | true =>
        cases har : gh_download_release_asset w
            { fs := fs1, temps := [], tmpDirs := [], counter := 0 } p.repo
            (p.release_tag.getD "") (p.asset_name.getD "") with
        | mk r st2 =>
          have hlem := gh_download_release_asset_st w
            { fs := fs1, temps := [], tmpDirs := [], counter := 0 } p.repo
            (p.release_tag.getD "") (p.asset_name.getD "")
          rw [har] at hlem
          cases r with
          | error e =>
            constructor
            · exact hlem.1
            · intro h
              simp [exceptIsOk] at h
          | ok rr =>
            have hh := gh_handle_downloaded_file_st w st2 rr.1 destination rr.2
              p.extract p.keep_archive
            constructor
            · exact hh.1 hlem.1
            · intro h
              show (gh_handle_downloaded_file w st2 rr.1 destination rr.2 p.extract
                p.keep_archive).2.temps = []
              rw [hh.2 h]
              rcases hlem.2.1 rr rfl with ⟨b, hb⟩
              rw [hb]
              exact removeTemp_append_one [] rr.1 b
    | false =>
      cases har : gh_download_repo_archive w
          { fs := fs1, temps := [], tmpDirs := [], counter := 0 } p.repo p.ref with
      | mk r st2 =>
        have hlem := gh_download_repo_archive_st w
          { fs := fs1, temps := [], tmpDirs := [], counter := 0 } p.repo p.ref
        rw [har] at hlem
        cases r with
        | error e =>
          constructor
          · exact hlem.1
          · intro h
            simp [exceptIsOk] at h
        | ok tn =>
          have hx := gh_extract_archive_st w st2 tn destination p.subdir
            p.keep_archive p.extract
            (some (pyPathName p.repo ++ "-" ++ p.ref ++ ".zip"))
          constructor
          · exact hx.1 hlem.1
          · intro h
            show (gh_extract_archive w st2 tn destination p.subdir p.keep_archive
              p.extract (some (pyPathName p.repo ++ "-" ++ p.ref ++ ".zip"))).2.temps = []
            rw [hx.2 h]
            rcases hlem.2.1 tn rfl with ⟨b, hb⟩
            rw [hb]
            exact removeTemp_append_one [] tn b

/-- Witness for the amended C2: a successful repository-archive
download at a concrete world ends with no live scratch directories and
no live temporary files. -/
theorem C2_amended_witness :
    (gh_download singleRootGHWorld [] ⟨true, ["data"]⟩ { repo := "o/r" }).2.tmpDirs =
      [] ∧
    (gh_download singleRootGHWorld [] ⟨true, ["data"]⟩ { repo := "o/r" }).2.temps =
      [] := by
  have h := C2_amended_temp_cleanup singleRootGHWorld [] ⟨true, ["data"]⟩
    { repo := "o/r" }
  exact ⟨h.1, h.2 (by decide)⟩

/-! ## Claim C3 — amended -/

theorem http_maybe_extract_dst {w : HTTPWorld} {fs : FS} {a d : Pth} {k : Bool}
    (hne : a.resolve ≠ d.resolve)
    (h : fsLookup fs d.resolve = some FNode.dirMark) :
    fsLookup (http_maybe_extract w fs a d k).1 d.resolve = some FNode.dirMark := by
  simp only [http_maybe_extract]
  cases hu : w.unpack a.lastComp (fsReadFile fs a.resolve) with
  | none => exact h
  | some members =>
    cases hk : k with
    | true => exact fsLookup_installUnder_dst members h
    | false =>
      show fsLookup (fsUnlink (fsInstallUnder fs d.resolve members) a.resolve)
        d.resolve = some FNode.dirMark
      rw [fsLookup_unlink_ne hne]
      exact fsLookup_installUnder_dst members h

theorem s3_extract_archive_dst {w : S3World} {fs : FS} {a d : Pth} {k : Bool}
    (hne : a.resolve ≠ d.resolve)
    (h : fsLookup fs d.resolve = some FNode.dirMark) :
    fsLookup (s3_extract_archive w fs a d k).1 d.resolve = some FNode.dirMark := by
  simp only [s3_extract_archive]
  cases hu : w.unpack a.lastComp (fsReadFile fs a.resolve) with
  | none => exact h
  | some members =>
    cases hk : k with
    | true => exact fsLookup_installUnder_dst members h
    | false =>
      show fsLookup (fsUnlink (fsInstallUnder fs d.resolve members) a.resolve)
        d.resolve = some FNode.dirMark
      rw [fsLookup_unlink_ne hne]
      exact fsLookup_installUnder_dst members h

theorem drive_maybe_extract_dst {w : DriveWorld} {fs : FS} {a d : Pth} {k : Bool}
    {r : FS × List (String × JVal)} (hne : a.resolve ≠ d.resolve)
    (h : fsLookup fs d.resolve = some FNode.dirMark)
    (hr : drive_maybe_extract w fs a d k = Except.ok r) :
    fsLookup r.1 d.resolve = some FNode.dirMark := by
  unfold drive_maybe_extract at hr
  by_cases hz : strToLower (pySplitext a.lastComp).2 = ".zip"
  · rw [if_pos hz] at hr
    cases hu : w.readZip (fsReadFile fs a.resolve) with
    | error e =>
      rw [hu] at hr
      simp at hr
    | ok members =>
      rw [hu] at hr
      simp only [Except.ok.injEq] at hr
      subst hr
      cases hk : k with
      | true =>
        show fsLookup (fsInstallUnder fs d.resolve members) d.resolve =
          some FNode.dirMark
        exact fsLookup_installUnder_dst members h
      | false =>
        show fsLookup (fsUnlink (fsInstallUnder fs d.resolve members) a.resolve)
          d.resolve = some FNode.dirMark
        rw [fsLookup_unlink_ne hne]
        exact fsLookup_installUnder_dst members h
  · rw [if_neg hz] at hr
    by_cases ht : (strToLower (pySplitext a.lastComp).2 = ".tar" ||
        strToLower (pySplitext a.lastComp).2 = ".gz" ||
        strToLower (pySplitext a.lastComp).2 = ".tgz" ||
        strToLower (pySplitext a.lastComp).2 = ".bz2") = true
    · rw [if_pos ht] at hr
      cases hu : w.readTar (fsReadFile fs a.resolve) with
      | error e =>
        rw [hu] at hr
        simp at hr
      | ok members =>
        rw [hu] at hr
        simp only [Except.ok.injEq] at hr
        subst hr
        cases hk : k with
        | true =>
          show fsLookup (fsInstallUnder fs d.resolve members) d.resolve =
            some FNode.dirMark
          exact fsLookup_installUnder_dst members h
        | false =>
          show fsLookup (fsUnlink (fsInstallUnder fs d.resolve members) a.resolve)
            d.resolve = some FNode.dirMark
          rw [fsLookup_unlink_ne hne]
          exact fsLookup_installUnder_dst members h
    · rw [if_neg ht] at hr
      simp only [Except.ok.injEq] at hr
      subst hr
      exact h

theorem fsLookup_cleanup_dst {dest : List String} {k : Bool} {m : FNode} :
    ∀ fs : FS, fsLookup fs dest = some m →
    fsLookup (kaggle_cleanup_archives fs dest k) dest = some m := by
  intro fs
  induction fs with
  | nil =>
    intro h
    simp [fsLookup] at h
  | cons e rest ih =>
    intro h
    rcases e with ⟨ep, en⟩
    by_cases he : ep = dest
    · subst he
      have hdl : dropLead ep ep = some [] := dropLead_self ep
      simp only [kaggle_cleanup_archives, hdl]
      have hv : en = m := by
        simp [fsLookup] at h
        exact h
      cases en with
      | file c =>
        simp only [fsLookup]
        simp [hv]
      | dirMark =>
        simp only [fsLookup]
        simp [hv]
      | link t =>
        simp only [fsLookup]
        simp [hv]
    · have h2 : fsLookup rest dest = some m := by
        simp only [fsLookup] at h
        rw [if_neg (by simpa using he)] at h
        exact h
      have hres := ih h2
      simp only [kaggle_cleanup_archives]
      cases hdl : dropLead dest ep with
      | none =>
        cases en with
        | file c =>
          simp only [fsLookup]
          rw [if_neg (by simpa using he)]
          exact hres
        | dirMark =>
          simp only [fsLookup]
          rw [if_neg (by simpa using he)]
          exact hres
        | link t =>
          simp only [fsLookup]
          rw [if_neg (by simpa using he)]
          exact hres
      | some rel =>
        cases rel with
        | nil =>
          cases en with
          | file c =>
            simp only [fsLookup]
            rw [if_neg (by simpa using he)]
            exact hres
          | dirMark =>
            simp only [fsLookup]
            rw [if_neg (by simpa using he)]
            exact hres
          | link t =>
            simp only [fsLookup]
            rw [if_neg (by simpa using he)]
            exact hres
        | cons n ns =>
          cases ns with
          | nil =>
            cases en with
            | file c =>
              show fsLookup (if (strEndsWith n ".zip" && !k) = true then
                  kaggle_cleanup_archives rest dest k
                else (ep, FNode.file c) :: kaggle_cleanup_archives rest dest k)
                dest = some m
              by_cases hzip : (strEndsWith n ".zip" && !k) = true
              · rw [if_pos hzip]
                exact hres
              · rw [if_neg hzip]
                simp only [fsLookup]
                rw [if_neg (by simpa using he)]
                exact hres
            | dirMark =>
              simp only [fsLookup]
              rw [if_neg (by simpa using he)]
              exact hres
            | link t =>
              simp only [fsLookup]
              rw [if_neg (by simpa using he)]
              exact hres
          | cons n2 ns2 =>
            cases en with
            | file c =>
              simp only [fsLookup]
              rw [if_neg (by simpa using he)]
              exact hres
            | dirMark =>
              simp only [fsLookup]
              rw [if_neg (by simpa using he)]
              exact hres
            | link t =>
              simp only [fsLookup]
              rw [if_neg (by simpa using he)]
              exact hres

theorem http_loop_dst (w : HTTPWorld) (d : Pth) (p : HTTPParams) :
    ∀ (ts : List String) (i : Nat) (fs : FS) (lg sv : List String),
    fsLookup fs d.resolve = some FNode.dirMark →
    fsLookup (http_download_loop w d p ts i fs lg sv).2.1 d.resolve =
      some FNode.dirMark := by
  intro ts
  induction ts with
  | nil =>
    intro i fs lg sv h
    exact h
  | cons u rest ih =>
    intro i fs lg sv h
    simp only [http_download_loop]
    cases hf : w.fetch u with
    | error e => exact h
    | ok content =>
      have h1 : fsLookup (fsSetEntry fs
          (d.child (pick_name p.filename (infer_filename u) i)).resolve
          (FNode.file content)) d.resolve = some FNode.dirMark :=
        fsLookup_setEntry_of_some (child_resolve_ne d _) h
      cases hex : p.extract with
      | true =>
        exact ih _ _ _ _ (http_maybe_extract_dst (child_resolve_ne d _) h1)
      | false =>
        exact ih _ _ _ _ h1

theorem gh_extract_body_dst {w : GHWorld} {st : GHSt} {b : String} {d : Pth}
    {s : Option String} (hres : d.resolve ≠ [])
    (hok : exceptIsOk (gh_extract_body w st b d s).1 = true) :
    fsLookup (gh_extract_body w st b d s).2.fs d.resolve = some FNode.dirMark := by
  cases hu : w.unzip b with
  | error e =>
    exfalso
    simp [gh_extract_body, hu, exceptIsOk] at hok
  | ok members =>
    simp only [gh_extract_body, hu] at hok ⊢
    cases hr : gh_find_single_root (fsInstallUnder [] [] members) with
    | error e =>
      exfalso
      simp [hr, exceptIsOk] at hok
    | ok root =>
      simp only [hr] at hok ⊢
      cases s with
      | none =>
        cases he : ensure_destination st.fs d.resolve true with
        | error e =>
          exfalso
          simp [he, exceptIsOk] at hok
        | ok fs1 =>
          simp only [he]
          exact fsLookup_installUnder_dst _ (ensure_destination_ok_lookup hres he)
      | some sd =>
        by_cases hx : fsExists (fsInstallUnder [] [] members)
            (root ++ splitOnSlash sd) = true
        · simp only [hx, if_true]
          cases he : ensure_destination st.fs d.resolve true with
          | error e =>
            exfalso
            simp [hx, he, exceptIsOk] at hok
          | ok fs1 =>
            simp only [he]
            exact fsLookup_installUnder_dst _ (ensure_destination_ok_lookup hres he)
        · exfalso
          simp [hx, exceptIsOk] at hok

theorem gh_extract_archive_dst {w : GHWorld} {st : GHSt} {n : String} {d : Pth}
    {s : Option String} {ka ex : Bool} {lbl : Option String}
    (hres : d.resolve ≠ [])
    (h : fsLookup st.fs d.resolve = some FNode.dirMark) :
    exceptIsOk (gh_extract_archive w st n d s ka ex lbl).1 = true →
    fsLookup (gh_extract_archive w st n d s ka ex lbl).2.fs d.resolve =
      some FNode.dirMark := by
  intro hok
  cases hl : lookupTemp st.temps n with
  | none =>
    exfalso
    simp [gh_extract_archive, hl, exceptIsOk] at hok
  | some bytes =>
    revert hok
    cases hex : ex with
    | false =>
      intro _
      simp only [gh_extract_archive, hl, Bool.not_false, if_true]
      show fsLookup (fsSetEntry st.fs (d.child (lbl.getD n)).resolve
        (FNode.file bytes)) d.resolve = some FNode.dirMark
      exact fsLookup_setEntry_of_some (child_resolve_ne d _) h
    | true =>
      intro hok
      simp only [gh_extract_archive, hl, Bool.not_true, Bool.false_eq_true,
        if_false] at hok ⊢
      cases hb : (gh_extract_body w
          { st with tmpDirs := st.tmpDirs ++ [st.counter], counter := st.counter + 1 }
          bytes d s).1 with
      | error e =>
        exfalso
        rw [hb] at hok
        simp [exceptIsOk] at hok
      | ok u =>
        have hfs := gh_extract_body_dst hres (by rw [hb]; rfl)
        cases hka : ka with
        | true =>
          show fsLookup (fsSetEntry (gh_extract_body w
              { st with tmpDirs := st.tmpDirs ++ [st.counter],
                        counter := st.counter + 1 } bytes d s).2.fs
              (d.child (lbl.getD n)).resolve (FNode.file bytes)) d.resolve =
            some FNode.dirMark
          exact fsLookup_setEntry_of_some (child_resolve_ne d _) hfs
        | false =>
          exact hfs

theorem gh_handle_dst {w : GHWorld} {st : GHSt} {tn : String} {d : Pth}
    {onm : String} {ex ka : Bool} (hres : d.resolve ≠ [])
    (h : fsLookup st.fs d.resolve = some FNode.dirMark) :
    exceptIsOk (gh_handle_downloaded_file w st tn d onm ex ka).1 = true →
    fsLookup (gh_handle_downloaded_file w st tn d onm ex ka).2.fs d.resolve =
      some FNode.dirMark := by
  simp only [gh_handle_downloaded_file]
  split
  · exact gh_extract_archive_dst hres h
  · cases hl : lookupTemp st.temps tn with
    | none =>
      intro hok
      simp [exceptIsOk] at hok
    | some bytes =>
      intro _
      show fsLookup (fsSetEntry (fsMkdirP st.fs d.resolve) (d.child onm).resolve
        (FNode.file bytes)) d.resolve = some FNode.dirMark
      exact fsLookup_setEntry_of_some (child_resolve_ne d _)
        (fsLookup_mkdirP_of_some h)

theorem gh_download_repo_archive_fs (w : GHWorld) (st : GHSt) (repo ref : String) :
    (gh_download_repo_archive w st repo ref).2.fs = st.fs := by
  cases hz : w.zipball repo ref with
  | error s => simp [gh_download_repo_archive, hz]
  | ok bytes => simp [gh_download_repo_archive, hz]

theorem gh_download_release_asset_fs (w : GHWorld) (st : GHSt)
    (repo tag an : String) :
    (gh_download_release_asset w st repo tag an).2.fs = st.fs := by
  cases hz : w.release repo tag with
  | error s => simp [gh_download_release_asset, hz]
  | ok assets =>
    simp only [gh_download_release_asset, hz]
    cases hf : assets.find? (fun a => a.name = an) with
    | none => simp [hf]
    | some asset =>
      simp only [hf]
      cases hu : asset.url with
      | none => simp [hu]
      | some aurl =>
        simp only [hu]
        by_cases he : aurl = ""
        · simp [he]
        · rw [if_neg he]
          cases ha : w.assetFetch aurl with
          | error s => simp [ha]
          | ok bytes => simp [ha]

theorem local_copy_dst {fs : FS} {s d : Pth}
    (h : fsLookup fs d.resolve = some FNode.dirMark) :
    fsLookup (local_copy fs s d) d.resolve = some FNode.dirMark := by
  unfold local_copy
  cases hs : fsLookup fs s.resolve with
  | none => exact h
  | some nd =>
    cases nd with
    | dirMark => exact fsLookup_installUnder_dst _ h
    | file c => exact fsLookup_setEntry_of_some (child_resolve_ne d _) h
    | link t => exact h

theorem gh_extract_archive_path (w : GHWorld) (st : GHSt) (n : String) (d : Pth)
    (s : Option String) (ka ex : Bool) (lbl : Option String) :
    exceptIsOk (gh_extract_archive w st n d s ka ex lbl).1 = true →
    resultPath (gh_extract_archive w st n d s ka ex lbl).1 = some d := by
  cases hl : lookupTemp st.temps n with
  | none =>
    intro hok
    simp [gh_extract_archive, hl, exceptIsOk] at hok
  | some bytes =>
    cases hex : ex with
    | false =>
      intro _
      simp [gh_extract_archive, hl, resultPath]
    | true =>
      simp only [gh_extract_archive, hl, Bool.not_true, Bool.false_eq_true,
        if_false]
      cases hb : (gh_extract_body w
          { st with tmpDirs := st.tmpDirs ++ [st.counter], counter := st.counter + 1 }
          bytes d s).1 with
      | error e =>
        intro hok
        simp [exceptIsOk] at hok
      | ok u =>
        intro _
        cases hka : ka with
        | true => simp [resultPath]
        | false => simp [resultPath]

theorem gh_handle_path (w : GHWorld) (st : GHSt) (tn : String) (d : Pth)
    (onm : String) (ex ka : Bool) :
    exceptIsOk (gh_handle_downloaded_file w st tn d onm ex ka).1 = true →
    resultPath (gh_handle_downloaded_file w st tn d onm ex ka).1 = some d := by
  simp only [gh_handle_downloaded_file]
  split
  · exact gh_extract_archive_path w st tn d none ka true (some onm)
  · cases hl : lookupTemp st.temps tn with
    | none =>
      intro hok
      simp [exceptIsOk] at hok
    | some bytes =>
      intro _
      simp [resultPath]

/-- Claim C3 (amended): for every backend, a successful download returns a
result whose `dataset_path` equals the destination path exactly as the
caller supplied it (it is not resolved to an absolute path, see the
counterexample), and the destination exists on disk at the moment the
result is returned (as a directory for the seven creating flows; for the
local importer the destination is the created entry, a symlink or a
directory). -/
theorem C3_amended_dataset_path (d : Pth) :
    (∀ (w : HTTPWorld) (fs : FS) (p : HTTPParams),
      exceptIsOk (http_download w fs d p).1 = true →
      resultPath (http_download w fs d p).1 = some d ∧
      fsLookup (http_download w fs d p).2.1 d.resolve = some FNode.dirMark) ∧
    (∀ (w : GHWorld) (fs : FS) (p : GHParams),
      exceptIsOk (gh_download w fs d p).1 = true →
      resultPath (gh_download w fs d p).1 = some d ∧
      fsLookup (gh_download w fs d p).2.fs d.resolve = some FNode.dirMark) ∧
    (∀ (w : DriveWorld) (fs : FS) (fid : String) (fn : Option String) (ex ow ka : Bool),
      exceptIsOk (drive_download w fs d fid fn ex ow ka).1 = true →
      resultPath (drive_download w fs d fid fn ex ow ka).1 = some d ∧
      fsLookup (drive_download w fs d fid fn ex ow ka).2.1 d.resolve =
        some FNode.dirMark) ∧
    (∀ (w : KaggleWorld) (fs : FS) (exe : String) (ds cp : Option String)
        (fl ea : Option (List String)) (uz ow ka : Bool),
      exceptIsOk (kaggle_download w fs d exe ds cp fl uz ow ka ea).1 = true →
      resultPath (kaggle_download w fs d exe ds cp fl uz ow ka ea).1 = some d ∧
      fsLookup (kaggle_download w fs d exe ds cp fl uz ow ka ea).2.1 d.resolve =
        some FNode.dirMark) ∧
    (∀ (w : S3World) (fs : FS) (b k : String) (v fn : Option String) (ex ow ka : Bool),
      exceptIsOk (s3_download w fs d b k v fn ex ow ka).1 = true →
      resultPath (s3_download w fs d b k v fn ex ow ka).1 = some d ∧
      fsLookup (s3_download w fs d b k v fn ex ow ka).2 d.resolve =
        some FNode.dirMark) ∧
    (∀ (w : HFWorld) (fs : FS) (rid rt rv : String) (ow : Bool),
      exceptIsOk (hf_download w fs d rid rt rv ow).1 = true →
      resultPath (hf_download w fs d rid rt rv ow).1 = some d ∧
      fsLookup (hf_download w fs d rid rt rv ow).2 d.resolve = some FNode.dirMark) ∧
    (∀ (fs : FS) (s : Pth) (ow sym : Bool),
      exceptIsOk (local_download fs d s ow sym).1 = true →
      resultPath (local_download fs d s ow sym).1 = some d ∧
      fsExists (local_download fs d s ow sym).2 d.resolve = true) := by
  have hres : d.resolve ≠ [] := by simp [Pth.resolve]
  refine ⟨?_, ?_, ?_, ?_, ?_, ?_, ?_⟩
  · intro w fs p hok
    cases he : ensure_destination fs d.resolve p.overwrite with
    | error e =>
      simp [http_download, he, exceptIsOk] at hok
    | ok fs1 =>
      simp only [http_download, he] at hok ⊢
      cases hn : normalise_urls p.url p.urls with
      | error e =>
        simp [hn, exceptIsOk] at hok
      | ok targets =>
        simp only [hn] at hok ⊢
        have hl := http_loop_dst w d p targets 1 fs1 [] []
          (ensure_destination_ok_lookup hres he)
        rcases hloop : http_download_loop w d p targets 1 fs1 [] [] with ⟨r, fs2, lg⟩
        rw [hloop] at hl
        rw [hloop] at hok
        cases r with
        | error e =>
          simp [exceptIsOk] at hok
        | ok saved =>
          refine ⟨?_, ?_⟩
          · simp [resultPath]
          · simpa using hl
  · intro w fs p hok
    cases he : ensure_destination fs d.resolve p.overwrite with
    | error e =>
      simp [gh_download, he, exceptIsOk] at hok
    | ok fs1 =>
      simp only [gh_download, he] at hok ⊢
      cases hrel : truthyS p.release_tag with
      | false =>
        rw [hrel] at hok
        rcases har : gh_download_repo_archive w
            { fs := fs1, temps := [], tmpDirs := [], counter := 0 } p.repo p.ref
          with ⟨r, st2⟩
        rw [har] at hok
        have hfseq := gh_download_repo_archive_fs w
          { fs := fs1, temps := [], tmpDirs := [], counter := 0 } p.repo p.ref
        rw [har] at hfseq
        simp at hfseq
        cases r with
        | error e =>
          simp [exceptIsOk] at hok
        | ok tempName =>
          have hfs2 : fsLookup st2.fs d.resolve = some FNode.dirMark := by
            rw [hfseq]
            exact ensure_destination_ok_lookup hres he
          refine ⟨?_, ?_⟩
          · exact gh_extract_archive_path w st2 tempName d p.subdir p.keep_archive
              p.extract (some (pyPathName p.repo ++ "-" ++ p.ref ++ ".zip")) hok
          · exact gh_extract_archive_dst hres hfs2 hok
      | true =>
        rw [hrel] at hok
        cases han : truthyS p.asset_name with
        | false =>
          simp [han, exceptIsOk] at hok
        | true =>
          rw [han] at hok
          rcases har : gh_download_release_asset w
              { fs := fs1, temps := [], tmpDirs := [], counter := 0 } p.repo
              (p.release_tag.getD "") (p.asset_name.getD "") with ⟨r, st2⟩
          rw [har] at hok
          have hfseq := gh_download_release_asset_fs w
            { fs := fs1, temps := [], tmpDirs := [], counter := 0 } p.repo
            (p.release_tag.getD "") (p.asset_name.getD "")
          rw [har] at hfseq
          simp at hfseq
          cases r with
          | error e =>
            simp [exceptIsOk] at hok
          | ok rr =>
            have hfs2 : fsLookup st2.fs d.resolve = some FNode.dirMark := by
              rw [hfseq]
              exact ensure_destination_ok_lookup hres he
            refine ⟨?_, ?_⟩
            · exact gh_handle_path w st2 rr.1 d rr.2 p.extract p.keep_archive hok
            · exact gh_handle_dst hres hfs2 hok
  · intro w fs fid fn ex ow ka hok
    cases he : ensure_destination fs d.resolve ow with
    | error e =>
      simp [drive_download, he, exceptIsOk] at hok
    | ok fs1 =>
      simp only [drive_download, he] at hok ⊢
      rcases hdf : drive_fetch w fid with ⟨rr, lg⟩
      rw [hdf] at hok
      cases rr with
      | error e =>
        simp [exceptIsOk] at hok
      | ok resp =>
        cases hex : ex with
        | false =>
          refine ⟨?_, ?_⟩
          · simp [resultPath]
          · exact fsLookup_setEntry_of_some (child_resolve_ne d _)
              (ensure_destination_ok_lookup hres he)
        | true =>
          cases hme : drive_maybe_extract w
              (fsSetEntry fs1
                (d.child (pyOrS fn (pyOrS (drive_infer_filename resp)
                  (fid ++ ".bin")))).resolve
                (FNode.file resp.body))
              (d.child (pyOrS fn (pyOrS (drive_infer_filename resp)
                (fid ++ ".bin")))) d ka with
          | error e =>
            simp [hme, hex, exceptIsOk] at hok
          | ok r =>
            refine ⟨?_, ?_⟩
            · simp [hex, hme, resultPath]
            · have hdst := drive_maybe_extract_dst (child_resolve_ne d _)
                (fsLookup_setEntry_of_some (child_resolve_ne d _)
                  (ensure_destination_ok_lookup hres he)) hme
              simpa [hex, hme] using hdst
  · intro w fs exe ds cp fl ea uz ow ka hok
    cases he : ensure_destination fs d.resolve ow with
    | error e =>
      simp [kaggle_download, he, exceptIsOk] at hok
    | ok fs1 =>
      simp only [kaggle_download, he] at hok ⊢
      cases hb : kaggle_build_command exe ds cp fl uz d ea with
      | error e =>
        simp [hb, exceptIsOk] at hok
      | ok cmd =>
        simp only [hb] at hok ⊢
        by_cases hrc : (w.run cmd).returncode ≠ 0
        · rw [if_pos hrc] at hok
          simp [exceptIsOk] at hok
        · rw [if_neg hrc] at hok ⊢
          refine ⟨?_, ?_⟩
          · simp [resultPath]
          · cases huz : uz with
            | true =>
              exact fsLookup_cleanup_dst _
                (fsLookup_installUnder_dst _ (ensure_destination_ok_lookup hres he))
            | false =>
              exact fsLookup_installUnder_dst _ (ensure_destination_ok_lookup hres he)
  · intro w fs b k v fn ex ow ka hok
    cases he : ensure_destination fs d.resolve ow with
    | error e =>
      simp [s3_download, he, exceptIsOk] at hok
    | ok fs1 =>
      simp only [s3_download, he] at hok ⊢
      cases hdf : w.download_file b k v with
      | error e =>
        simp [hdf, exceptIsOk] at hok
      | ok content =>
        simp only [hdf] at hok ⊢
        refine ⟨?_, ?_⟩
        · simp [resultPath]
        · cases hex : ex with
          | true =>
            exact s3_extract_archive_dst (child_resolve_ne d _)
              (fsLookup_setEntry_of_some (child_resolve_ne d _)
                (ensure_destination_ok_lookup hres he))
          | false =>
            exact fsLookup_setEntry_of_some (child_resolve_ne d _)
              (ensure_destination_ok_lookup hres he)
  · intro w fs rid rt rv ow hok
    cases he : ensure_destination fs d.resolve ow with
    | error e =>
      simp [hf_download, he, exceptIsOk] at hok
    | ok fs1 =>
      simp only [hf_download, he] at hok ⊢
      cases hsnap : w.snapshot rid rt rv with
      | error e =>
        simp [hsnap, exceptIsOk] at hok
      | ok r =>
        simp only [hsnap] at hok ⊢
        refine ⟨?_, ?_⟩
        · simp [resultPath]
        · exact fsLookup_installUnder_dst _ (ensure_destination_ok_lookup hres he)
  · intro fs s ow sym hok
    by_cases hsrc : fsExists fs s.resolve = true
    · simp only [local_download, hsrc, Bool.not_true, Bool.false_eq_true,
        if_false] at hok ⊢
      cases hsym : sym with
      | true =>
        cases hp : local_prepare_for_symlink fs d ow with
        | error e =>
          simp [hsym, hp, exceptIsOk] at hok
        | ok fs1 =>
          refine ⟨?_, ?_⟩
          · simp [resultPath]
          · show fsExists (fs1 ++ [(d.resolve, FNode.link s.resolve)]) d.resolve = true
            exact fsLookup_append_one_self fs1 d.resolve (FNode.link s.resolve)
      | false =>
        cases he : ensure_destination fs d.resolve ow with
        | error e =>
          simp [hsym, he, exceptIsOk] at hok
        | ok fs1 =>
          refine ⟨?_, ?_⟩
          · simp [resultPath]
          · show fsExists (local_copy fs1 s d) d.resolve = true
            simp [fsExists, local_copy_dst (ensure_destination_ok_lookup hres he)]
    · have hsrc2 : fsExists fs s.resolve = false := by
        cases h2 : fsExists fs s.resolve with
        | false => rfl
        | true => exact absurd h2 hsrc
      simp [local_download, hsrc2, exceptIsOk] at hok

/-- An HTTP world whose single fetch succeeds, for the C3 witness. -/
def c3HTTPWorld : HTTPWorld :=
  { fetch := fun _ => Except.ok "B", unpack := fun _ _ => none }

/-- A Kaggle CLI that exits 0, for the C3 witness. -/
def c3KaggleWorld : KaggleWorld :=
  { run := fun _ => { returncode := 0, stdout := "ok", stderr := "", writes := [] } }

/-- An S3 client whose download succeeds, for the C3 witness. -/
def c3S3World : S3World :=
  { download_file := fun _ _ _ => Except.ok "B", unpack := fun _ _ => none }

/-- A Hugging Face hub whose snapshot succeeds, for the C3 witness. -/
def c3HFWorld : HFWorld :=
  { snapshot := fun _ _ _ => Except.ok ("/cache", []) }

/-- A filesystem holding the local-import source file, for the C3 witness. -/
def c3src : FS := [(["/", "s"], FNode.file "x")]

/-- Witness for the amended C3: concrete successful runs of all seven
backends return `dataset_path = /data` as given and leave `/data` on disk. -/
theorem C3_amended_witness :
    (resultPath (http_download c3HTTPWorld [] ⟨true, ["data"]⟩
        { url := some "https://h/f.bin" }).1 = some ⟨true, ["data"]⟩ ∧
      fsLookup (http_download c3HTTPWorld [] ⟨true, ["data"]⟩
        { url := some "https://h/f.bin" }).2.1
        (Pth.resolve ⟨true, ["data"]⟩) = some FNode.dirMark) ∧
    (resultPath (gh_download singleRootGHWorld [] ⟨true, ["data"]⟩ { repo := "o/r" }).1 =
        some ⟨true, ["data"]⟩ ∧
      fsLookup (gh_download singleRootGHWorld [] ⟨true, ["data"]⟩ { repo := "o/r" }).2.fs
        (Pth.resolve ⟨true, ["data"]⟩) = some FNode.dirMark) ∧
    (resultPath (drive_download driveWorldNoCookie [] ⟨true, ["data"]⟩ "f" none
        false false false).1 = some ⟨true, ["data"]⟩ ∧
      fsLookup (drive_download driveWorldNoCookie [] ⟨true, ["data"]⟩ "f" none
        false false false).2.1
        (Pth.resolve ⟨true, ["data"]⟩) = some FNode.dirMark) ∧
    (resultPath (kaggle_download c3KaggleWorld [] ⟨true, ["data"]⟩ "kaggle" (some "ds")
        none none false false false none).1 = some ⟨true, ["data"]⟩ ∧
      fsLookup (kaggle_download c3KaggleWorld [] ⟨true, ["data"]⟩ "kaggle" (some "ds")
        none none false false false none).2.1
        (Pth.resolve ⟨true, ["data"]⟩) = some FNode.dirMark) ∧
    (resultPath (s3_download c3S3World [] ⟨true, ["data"]⟩ "b" "k" none none
        false false false).1 = some ⟨true, ["data"]⟩ ∧
      fsLookup (s3_download c3S3World [] ⟨true, ["data"]⟩ "b" "k" none none
        false false false).2
        (Pth.resolve ⟨true, ["data"]⟩) = some FNode.dirMark) ∧
    (resultPath (hf_download c3HFWorld [] ⟨true, ["data"]⟩ "r" "dataset" "main" false).1 =
        some ⟨true, ["data"]⟩ ∧
      fsLookup (hf_download c3HFWorld [] ⟨true, ["data"]⟩ "r" "dataset" "main" false).2
        (Pth.resolve ⟨true, ["data"]⟩) = some FNode.dirMark) ∧
    (resultPath (local_download c3src ⟨true, ["data"]⟩ ⟨true, ["s"]⟩ false false).1 =
        some ⟨true, ["data"]⟩ ∧
      fsExists (local_download c3src ⟨true, ["data"]⟩ ⟨true, ["s"]⟩ false false).2
        (Pth.resolve ⟨true, ["data"]⟩) = true) := by
  have h := C3_amended_dataset_path ⟨true, ["data"]⟩
  exact ⟨h.1 c3HTTPWorld [] { url := some "https://h/f.bin" } (by decide),
         h.2.1 singleRootGHWorld [] { repo := "o/r" } (by decide),
         h.2.2.1 driveWorldNoCookie [] "f" none false false false (by decide),
         h.2.2.2.1 c3KaggleWorld [] "kaggle" (some "ds") none none none false false
           false (by decide),
         h.2.2.2.2.1 c3S3World [] "b" "k" none none false false false (by decide),
         h.2.2.2.2.2.1 c3HFWorld [] "r" "dataset" "main" false (by decide),
         h.2.2.2.2.2.2 c3src ⟨true, ["s"]⟩ false false (by decide)⟩

/-- A single-root archive — one top-level directory `X` wrapping a file —
with a sibling top-level file `README.md`, parametric in the wrapped
file name and content. -/
def c1Members (fnm c : String) : Archive :=
  [(["X"], FNode.dirMark), (["X", fnm], FNode.file c),
   (["README.md"], FNode.file "R")]

/-- A GitHub world serving the parametric single-root archive. -/
def c1GHWorld (fnm c : String) : GHWorld :=
  { zipball := fun r f =>
      if r = "o/r" && f = "main" then Except.ok "ZB" else Except.error "404",
    release := fun _ _ => Except.error "404",
    assetFetch := fun _ => Except.error "404",
    unzip := fun b =>
      if b = "ZB" then Except.ok (c1Members fnm c) else Except.error "BadZipFile" }

/-- An HTTP world serving the parametric single-root archive as `d.zip`. -/
def c1HTTPWorld (fnm c : String) : HTTPWorld :=
  { fetch := fun u =>
      if u = "https://h/d.zip" then Except.ok "ZB" else Except.error "404",
    unpack := fun n b =>
      if n = "d.zip" && b = "ZB" then some (c1Members fnm c) else none }

/-- A drive world serving the parametric single-root archive. -/
def c1DriveWorld (fnm c : String) : DriveWorld :=
  { first := { ok := true, snippet := "", cookies := [],
               contentDisposition := none, body := "ZB" },
    second := respSecond,
    readZip := fun b =>
      if b = "ZB" then Except.ok (c1Members fnm c) else Except.error "BadZipFile",
    readTar := fun _ => Except.error "ReadError" }

/-- An S3 world serving the parametric single-root archive as `d.zip`. -/
def c1S3World (fnm c : String) : S3World :=
  { download_file := fun _ _ _ => Except.ok "ZB",
    unpack := fun n b =>
      if n = "d.zip" && b = "ZB" then some (c1Members fnm c) else none }

set_option maxHeartbeats 2000000 in
/-- Claim C1 (amended): only the repository-archive backend applies a
single-root collapse, and its rule keys on the top-level directories of
the extracted scratch tree. For every archive: when the scratch tree
holds exactly one directory among its immediate children, exactly that
directory's contents are copied into the destination — sibling top-level
files are dropped; when it holds no directory at all, the call fails
with "Archive content is empty." even if top-level files exist; with two
or more top-level directories the scratch contents are copied as-is.
The generic-HTTP, S3 and consumer-drive extractors install the members
of every archive into the destination as-is, never collapsing. End to
end, the one-directory archive `X/f` with sibling `README.md` leaves the
GitHub destination with children `["f"]` (wrapper stripped, sibling
dropped) and the HTTP, drive and S3 destinations with `X` still nested
and the sibling kept. -/
theorem C1_amended_single_root_collapse :
    (∀ (w : GHWorld) (st : GHSt) (bytes : String) (d : Pth) (members : Archive)
        (c : String) (fs1 : FS),
      w.unzip bytes = Except.ok members →
      (fsChildNames (fsInstallUnder [] [] members) []).filter
          (fun n => fsLookup (fsInstallUnder [] [] members) [n] =
            some FNode.dirMark) = [c] →
      ensure_destination st.fs d.resolve true = Except.ok fs1 →
      (gh_extract_body w st bytes d none).1 = Except.ok () ∧
      (gh_extract_body w st bytes d none).2.fs =
        fsInstallUnder fs1 d.resolve
          (fsSubtreeStrict (fsInstallUnder [] [] members) [c])) ∧
    (∀ (w : GHWorld) (st : GHSt) (bytes : String) (d : Pth) (members : Archive),
      w.unzip bytes = Except.ok members →
      (fsChildNames (fsInstallUnder [] [] members) []).filter
          (fun n => fsLookup (fsInstallUnder [] [] members) [n] =
            some FNode.dirMark) = [] →
      (gh_extract_body w st bytes d none).1 =
        Except.error "Archive content is empty." ∧
      (gh_extract_body w st bytes d none).2 = st) ∧
    (∀ (w : GHWorld) (st : GHSt) (bytes : String) (d : Pth) (members : Archive)
        (a b : String) (l : List String) (fs1 : FS),
      w.unzip bytes = Except.ok members →
      (fsChildNames (fsInstallUnder [] [] members) []).filter
          (fun n => fsLookup (fsInstallUnder [] [] members) [n] =
            some FNode.dirMark) = a :: b :: l →
      ensure_destination st.fs d.resolve true = Except.ok fs1 →
      (gh_extract_body w st bytes d none).1 = Except.ok () ∧
      (gh_extract_body w st bytes d none).2.fs =
        fsInstallUnder fs1 d.resolve
          (fsSubtreeStrict (fsInstallUnder [] [] members) [])) ∧
    (∀ (w : HTTPWorld) (fs : FS) (a d : Pth) (members : Archive) (ka : Bool),
      w.unpack a.lastComp (fsReadFile fs a.resolve) = some members →
      (http_maybe_extract w fs a d ka).1 =
        (if ka then fsInstallUnder fs d.resolve members
         else fsUnlink (fsInstallUnder fs d.resolve members) a.resolve)) ∧
    (∀ (w : S3World) (fs : FS) (a d : Pth) (members : Archive) (ka : Bool),
      w.unpack a.lastComp (fsReadFile fs a.resolve) = some members →
      (s3_extract_archive w fs a d ka).1 =
        (if ka then fsInstallUnder fs d.resolve members
         else fsUnlink (fsInstallUnder fs d.resolve members) a.resolve)) ∧
    (∀ (w : DriveWorld) (fs : FS) (a d : Pth) (members : Archive) (ka : Bool),
      strToLower (pySplitext a.lastComp).2 = ".zip" →
      w.readZip (fsReadFile fs a.resolve) = Except.ok members →
      (drive_maybe_extract w fs a d ka).map Prod.fst =
        Except.ok (if ka then fsInstallUnder fs d.resolve members
         else fsUnlink (fsInstallUnder fs d.resolve members) a.resolve)) ∧
    (exceptIsOk (gh_download (c1GHWorld "f" "C") [] ⟨true, ["data"]⟩
        { repo := "o/r" }).1 = true ∧
      fsChildNames (gh_download (c1GHWorld "f" "C") [] ⟨true, ["data"]⟩
        { repo := "o/r" }).2.fs ["/", "data"] = ["f"] ∧
      fsFilesUnder (gh_download (c1GHWorld "f" "C") [] ⟨true, ["data"]⟩
        { repo := "o/r" }).2.fs ["/", "data"] = [["f"]]) ∧
    (exceptIsOk (http_download (c1HTTPWorld "f" "C") [] ⟨true, ["data"]⟩
        { url := some "https://h/d.zip", extract := true }).1 = true ∧
      fsChildNames (http_download (c1HTTPWorld "f" "C") [] ⟨true, ["data"]⟩
        { url := some "https://h/d.zip", extract := true }).2.1 ["/", "data"] =
        ["X", "README.md"] ∧
      fsFilesUnder (http_download (c1HTTPWorld "f" "C") [] ⟨true, ["data"]⟩
        { url := some "https://h/d.zip", extract := true }).2.1 ["/", "data"] =
        [["X", "f"], ["README.md"]]) ∧
    (exceptIsOk (drive_download (c1DriveWorld "f" "C") [] ⟨true, ["data"]⟩ "f"
        (some "d.zip") true false false).1 = true ∧
      fsChildNames (drive_download (c1DriveWorld "f" "C") [] ⟨true, ["data"]⟩ "f"
        (some "d.zip") true false false).2.1 ["/", "data"] = ["X", "README.md"] ∧
      fsFilesUnder (drive_download (c1DriveWorld "f" "C") [] ⟨true, ["data"]⟩ "f"
        (some "d.zip") true false false).2.1 ["/", "data"] =
        [["X", "f"], ["README.md"]]) ∧
    (exceptIsOk (s3_download (c1S3World "f" "C") [] ⟨true, ["data"]⟩ "b" "k" none
        (some "d.zip") true false false).1 = true ∧
      fsChildNames (s3_download (c1S3World "f" "C") [] ⟨true, ["data"]⟩ "b" "k" none
        (some "d.zip") true false false).2 ["/", "data"] = ["X", "README.md"] ∧
      fsFilesUnder (s3_download (c1S3World "f" "C") [] ⟨true, ["data"]⟩ "b" "k" none
        (some "d.zip") true false false).2 ["/", "data"] =
        [["X", "f"], ["README.md"]]) := by
  refine ⟨?_, ?_, ?_, ?_, ?_, ?_, ?_, ?_, ?_, ?_⟩
  · intro w st bytes d members c fs1 hu hdirs he
    simp only [gh_extract_body, hu, gh_find_single_root, hdirs, he]
    simp
  · intro w st bytes d members hu hdirs
    simp only [gh_extract_body, hu, gh_find_single_root, hdirs]
    simp
  · intro w st bytes d members a b l fs1 hu hdirs he
    simp only [gh_extract_body, hu, gh_find_single_root, hdirs, he]
    simp
  · intro w fs a d members ka hu
    simp only [http_maybe_extract, hu]
  · intro w fs a d members ka hu
    simp only [s3_extract_archive, hu]
  · intro w fs a d members ka hz hr
    simp only [drive_maybe_extract]
    rw [if_pos hz, hr]
    cases ka <;> rfl
  · exact ⟨by decide, by decide, by decide⟩
  · exact ⟨by decide, by decide, by decide⟩
  · exact ⟨by decide, by decide, by decide⟩
  · exact ⟨by decide, by decide, by decide⟩
